import Mathlib

/-!
Shallow embedding of the portfolio consolidation engine
(`calculateConsolidatedData`, src/unnamed/part_010) and its data model
(src/types.ts).  JavaScript numbers are modelled as rationals (ℚ); the
engine's epsilon comparisons are kept verbatim.  Association objects
(`Record<string, T>`) are modelled as insertion-ordered association lists.
-/

namespace Planilha

set_option maxRecDepth 20000

set_option allowUnsafeReducibility true

/- Batteries marks the rational-number operations `@[irreducible]`, which
blocks `decide` from evaluating concrete scenarios; restore the default
reducibility so concrete runs of the engine can be checked by `decide`. -/
attribute [semireducible] Rat.add Rat.sub Rat.mul Rat.div Rat.inv Rat.ofScientific

/-- `const EPSILON = 0.00000001` (part_010 line 3). -/
def EPSILON : ℚ := 1 / 100000000

/-- `enum Country` (types.ts): BR = "BR", USA = "EUA". -/
inductive Country
  | BR
  | USA
deriving DecidableEq

/-- The string value of a `Country` enum member. -/
def Country.key : Country → String
  | Country.BR => "BR"
  | Country.USA => "EUA"

/-- `enum AssetCategory` (types.ts). -/
inductive AssetCategory
  | VARIABLE
  | FIXED
  | FII
deriving DecidableEq

/-- `enum TransactionType` (types.ts). -/
inductive TransactionType
  | BUY
  | SELL
  | DIVIDEND
  | BONUS
  | SPLIT
  | REDEMPTION
deriving DecidableEq

/-- `interface Transaction` (types.ts). -/
structure Transaction where
  id : String
  date : String
  ticker : String
  broker : String
  country : Country
  category : AssetCategory
  type : TransactionType
  quantity : ℚ
  unitPrice : ℚ
  fees : ℚ
  splitFrom : Option ℚ
  splitTo : Option ℚ
  maturityDate : Option String
  interestRate : Option ℚ
deriving DecidableEq

/-- `interface Lot` (types.ts). -/
structure Lot where
  date : String
  quantity : ℚ
  unitPrice : ℚ
  fees : ℚ
  originalQuantity : ℚ
deriving DecidableEq

/-- `interface MatchedLot` (types.ts). -/
structure MatchedLot where
  buyDate : String
  quantity : ℚ
  buyPrice : ℚ
  costBasis : ℚ
deriving DecidableEq

/-- `interface Position` (types.ts). -/
structure Position where
  ticker : String
  broker : String
  country : Country
  category : AssetCategory
  totalQuantity : ℚ
  averagePrice : ℚ
  totalInvested : ℚ
  totalDividends : ℚ
  lots : List Lot
  maturityDate : Option String
  interestRate : Option ℚ
deriving DecidableEq

/-- `interface RealizedGainDetail` (types.ts). -/
structure RealizedGainDetail where
  id : String
  date : String
  ticker : String
  broker : String
  country : Country
  category : AssetCategory
  quantity : ℚ
  sellPrice : ℚ
  costBasis : ℚ
  gain : ℚ
  month : String
deriving DecidableEq

/-- `interface HistoricalPoint` (types.ts). -/
structure HistoricalPoint where
  date : String
  equity : ℚ
  invested : ℚ
deriving DecidableEq

/-- `interface TaxMonthlySummary` (types.ts). -/
structure TaxMonthlySummary where
  month : String
  totalSalesBRL : ℚ
  taxableGainBRL : ℚ
  taxDueBRL : ℚ
  isExempt : Bool
  details : List RealizedGainDetail
deriving DecidableEq, Inhabited

/-- Lookup in an insertion-ordered association list (JS `record[key]`). -/
def getA? {β : Type} (k : String) : List (String × β) → Option β
  | [] => none
  | p :: t => if p.1 = k then some p.2 else getA? k t

/-- Write to an insertion-ordered association list (JS `record[key] = v`):
overwrite an existing binding in place, else append a new one. -/
def updA {β : Type} (k : String) (v : β) : List (String × β) → List (String × β)
  | [] => [(k, v)]
  | p :: t => if p.1 = k then (k, v) :: t else p :: updA k v t

/-- The mutable state threaded through the replay loop of
`calculateConsolidatedData` (part_010 lines 12-23). -/
structure EngineState where
  positions : List (String × Position)
  gainsByMonth : List (String × ℚ)
  sellMatches : List (String × List MatchedLot)
  realizedGainDetails : List RealizedGainDetail
  historicalEquity : List HistoricalPoint
  currentQuantities : List (String × ℚ)
  lastKnownPrices : List (String × ℚ)
  totalInvestedBRL : ℚ
  accumulatedRealizedGainBRL : ℚ
deriving DecidableEq

/-- All accumulators start empty / zero. -/
def initState : EngineState := ⟨[], [], [], [], [], [], [], 0, 0⟩

/-- Position key `country:ticker:broker` (part_010 line 27). -/
def posKey (tx : Transaction) : String :=
  tx.country.key ++ ":" ++ tx.ticker ++ ":" ++ tx.broker

/-- Price-tracking key `country:ticker` (part_010 line 28). -/
def tickerKey (tx : Transaction) : String :=
  tx.country.key ++ ":" ++ tx.ticker

/-- A fresh position as initialized on first reference (part_010 lines 31-45). -/
def initPosition (tx : Transaction) : Position :=
  ⟨tx.ticker, tx.broker, tx.country, tx.category, 0, 0, 0, 0, [],
   tx.maturityDate, tx.interestRate⟩

/-- Currency multiplier `tx.country === Country.USA ? usdRate : 1`. -/
def fxMul (usdRate : ℚ) (c : Country) : ℚ :=
  if c = Country.USA then usdRate else 1

/-- `fees / originalQuantity` with the `originalQuantity > 0` guard
(part_010 line 131). -/
def buyFeesPerUnit (l : Lot) : ℚ :=
  if 0 < l.originalQuantity then l.fees / l.originalQuantity else 0

/-- One iteration of the FIFO consumption `while` loop (part_010 lines
124-147), fuelled to make the recursion structural.  The loop runs while
`remainingToSell > EPSILON && lotsCopy.length > 0`; each iteration consumes
`min remaining lot.quantity` from the head lot and removes the lot once its
quantity drops to ≤ EPSILON.  Returns (matches, remaining lots, total cost
basis of sold units). -/
def consumeLoop : Nat → ℚ → List Lot → List MatchedLot × List Lot × ℚ
  | 0, _, lots => ([], lots, 0)
  | Nat.succ fuel, remaining, lots =>
    match lots with
    | [] => ([], [], 0)
    | h :: t =>
      if EPSILON < remaining then
        let c := min remaining h.quantity
        let cb := c * (h.unitPrice + buyFeesPerUnit h)
        if h.quantity - c ≤ EPSILON then
          let r := consumeLoop fuel (remaining - c) t
          (⟨h.date, c, h.unitPrice, cb⟩ :: r.1, r.2.1, cb + r.2.2)
        else
          let r := consumeLoop fuel (remaining - c)
            ({ h with quantity := h.quantity - c } :: t)
          (⟨h.date, c, h.unitPrice, cb⟩ :: r.1, r.2.1, cb + r.2.2)
      else ([], h :: t, 0)

/-- The FIFO consumption loop with enough fuel: each iteration with actual
progress removes a head lot, so `length + 1` iterations always suffice. -/
def consumeLots (remaining : ℚ) (lots : List Lot) :
    List MatchedLot × List Lot × ℚ :=
  consumeLoop (lots.length + 1) remaining lots

/-- The BUY branch (part_010 lines 54-84). -/
def buyBranch (usdRate : ℚ) (s : EngineState) (tx : Transaction)
    (pos : Position) : Position × EngineState :=
  let operationCost := tx.quantity * tx.unitPrice + tx.fees
  let previousCost := pos.totalQuantity * pos.averagePrice
  let newQty := pos.totalQuantity + tx.quantity
  let newAvg :=
    if EPSILON < newQty then (previousCost + operationCost) / newQty
    else pos.averagePrice
  ({ pos with
      totalQuantity := newQty,
      averagePrice := newAvg,
      totalInvested := newQty * newAvg,
      maturityDate :=
        if tx.category = AssetCategory.FIXED then tx.maturityDate
        else pos.maturityDate,
      interestRate :=
        if tx.category = AssetCategory.FIXED then tx.interestRate
        else pos.interestRate,
      lots := pos.lots ++ [⟨tx.date, tx.quantity, tx.unitPrice, tx.fees, tx.quantity⟩] },
   { s with totalInvestedBRL :=
       s.totalInvestedBRL + operationCost * fxMul usdRate tx.country })

/-- The BONUS branch (part_010 lines 87-93): zero-cost lot, diluted average. -/
def bonusBranch (s : EngineState) (tx : Transaction) (pos : Position) :
    Position × EngineState :=
  let newQty := pos.totalQuantity + tx.quantity
  ({ pos with
      totalQuantity := newQty,
      averagePrice :=
        if EPSILON < newQty then pos.totalInvested / newQty
        else pos.averagePrice,
      lots := pos.lots ++ [⟨tx.date, tx.quantity, 0, 0, tx.quantity⟩] }, s)

/-- One lot rescaled by a split (part_010 lines 100-104):
`unitPrice /= ratio; quantity *= ratio; originalQuantity *= ratio`. -/
def rescaleLot (factor : ℚ) (l : Lot) : Lot :=
  { l with
      unitPrice := l.unitPrice / factor,
      quantity := l.quantity * factor,
      originalQuantity := l.originalQuantity * factor }

/-- The SPLIT branch (part_010 lines 96-112).  The JS guard
`tx.splitFrom && tx.splitTo && tx.splitFrom > 0` requires both fields
present and truthy (≠ 0) and `splitFrom > 0`. -/
def splitBranch (s : EngineState) (tx : Transaction) (pos : Position) :
    Position × EngineState :=
  match tx.splitFrom, tx.splitTo with
  | some f, some g =>
    if f ≠ 0 ∧ g ≠ 0 ∧ 0 < f then
      let newLots := pos.lots.map (rescaleLot (g / f))
      let newQty := newLots.foldl (fun a l => a + l.quantity) 0
      ({ pos with
          lots := newLots,
          totalQuantity := newQty,
          averagePrice :=
            if EPSILON < newQty then pos.totalInvested / newQty else 0 }, s)
    else (pos, s)
  | _, _ => (pos, s)

/-- The SELL / REDEMPTION branch (part_010 lines 115-188). -/
def sellBranch (usdRate : ℚ) (s : EngineState) (tx : Transaction)
    (pos : Position) : Position × EngineState :=
  let monthKey := tx.date.take 7
  let r := consumeLots tx.quantity pos.lots
  let totalCost := r.2.2
  let proceeds := tx.quantity * tx.unitPrice - tx.fees
  let gain := proceeds - totalCost
  let fx := fxMul usdRate tx.country
  let newQty := pos.totalQuantity - tx.quantity
  let newInv := pos.totalInvested - totalCost
  let pos1 :=
    if |newQty| < EPSILON then
      { pos with lots := r.2.1, totalQuantity := 0, totalInvested := 0,
                 averagePrice := 0 }
    else
      { pos with lots := r.2.1, totalQuantity := newQty, totalInvested := newInv,
                 averagePrice := newInv / newQty }
  (pos1,
   { s with
      sellMatches := updA tx.id r.1 s.sellMatches,
      realizedGainDetails := s.realizedGainDetails ++
        [⟨tx.id, tx.date, tx.ticker, tx.broker, tx.country, tx.category,
          tx.quantity, tx.unitPrice, totalCost, gain, monthKey⟩],
      accumulatedRealizedGainBRL := s.accumulatedRealizedGainBRL + gain * fx,
      totalInvestedBRL := s.totalInvestedBRL - totalCost * fx,
      gainsByMonth :=
        updA monthKey ((getA? monthKey s.gainsByMonth).getD 0 + gain)
          s.gainsByMonth })

/-- The DIVIDEND branch (part_010 lines 191-196). -/
def dividendBranch (usdRate : ℚ) (s : EngineState) (tx : Transaction)
    (pos : Position) : Position × EngineState :=
  let amount := tx.quantity * tx.unitPrice - tx.fees
  ({ pos with totalDividends := pos.totalDividends + amount },
   { s with accumulatedRealizedGainBRL :=
       s.accumulatedRealizedGainBRL + amount * fxMul usdRate tx.country })

/-- Held-quantity delta for the equity curve (part_010 lines 200-201). -/
def qtyChange (tx : Transaction) : ℚ :=
  match tx.type with
  | TransactionType.BUY => tx.quantity
  | TransactionType.BONUS => tx.quantity
  | TransactionType.SELL => -tx.quantity
  | TransactionType.REDEMPTION => -tx.quantity
  | _ => 0

/-- JS `String.prototype.startsWith`, written with `String.take` so that the
kernel can evaluate it: the first `pre.length` characters equal `pre`. -/
def strStartsWith (s pre : String) : Bool := s.take pre.length == pre

/-- Mark-to-market value of all tracked quantities (part_010 lines 209-216):
sums `qty * lastKnownPrice * fx` over keys with `qty > EPSILON`; keys starting
with the USA country string (`tk.startsWith(Country.USA)`) are converted at
`usdRate`. -/
def marketValue (usdRate : ℚ) (cq lk : List (String × ℚ)) : ℚ :=
  cq.foldl (fun acc p =>
    if EPSILON < p.2 then
      acc + p.2 * ((getA? p.1 lk).getD 0) *
        (if strStartsWith p.1 (Country.key Country.USA) then usdRate else 1)
    else acc) 0

/-- Append or same-date overwrite of the day's equity point
(part_010 lines 222-230). -/
def pushPoint (pt : HistoricalPoint) (hist : List HistoricalPoint) :
    List HistoricalPoint :=
  match hist.getLast? with
  | some lp => if lp.date = pt.date then hist.dropLast ++ [pt] else hist ++ [pt]
  | none => hist ++ [pt]

/-- The `if/else-if` dispatch on `tx.type` (part_010 lines 54-196). -/
def dispatch (usdRate : ℚ) (s : EngineState) (tx : Transaction)
    (pos : Position) : Position × EngineState :=
  match tx.type with
  | TransactionType.BUY => buyBranch usdRate s tx pos
  | TransactionType.BONUS => bonusBranch s tx pos
  | TransactionType.SPLIT => splitBranch s tx pos
  | TransactionType.SELL => sellBranch usdRate s tx pos
  | TransactionType.REDEMPTION => sellBranch usdRate s tx pos
  | TransactionType.DIVIDEND => dividendBranch usdRate s tx pos

/-- One iteration of the replay `forEach` (part_010 lines 25-231): resolve the
position, record the last known price, dispatch on the transaction type, then
update the equity curve and store the mutated position back. -/
def processTx (usdRate : ℚ) (s : EngineState) (tx : Transaction) : EngineState :=
  let key := posKey tx
  let tkey := tickerKey tx
  let pos := (getA? key s.positions).getD (initPosition tx)
  let lk := updA tkey tx.unitPrice s.lastKnownPrices
  let pr := dispatch usdRate s tx pos
  let cq := updA tkey ((getA? tkey s.currentQuantities).getD 0 + qtyChange tx)
    s.currentQuantities
  let mv := marketValue usdRate cq lk
  { pr.2 with
      positions := updA key pr.1 pr.2.positions,
      currentQuantities := cq,
      lastKnownPrices := lk,
      historicalEquity :=
        pushPoint ⟨tx.date, mv + pr.2.accumulatedRealizedGainBRL,
                   pr.2.totalInvestedBRL⟩ s.historicalEquity }

/-- The replay loop over an already chronologically sorted transaction list
(`sortedTx.forEach`, part_010 line 25; `calculateConsolidatedData` first
sorts its input by date, line 10). -/
def replay (usdRate : ℚ) (txs : List Transaction) : EngineState :=
  txs.foldl (processTx usdRate) initState

/-- The position a transaction resolves to (part_010 lines 31-47). -/
def resolvePos (s : EngineState) (tx : Transaction) : Position :=
  (getA? (posKey tx) s.positions).getD (initPosition tx)

/-- A fresh monthly tax summary (part_010 lines 238-245). -/
def initSummary (m : String) : TaxMonthlySummary := ⟨m, 0, 0, 0, false, []⟩

/-- One iteration of the tax-grouping `forEach` (part_010 lines 236-254):
accumulate `quantity * sellPrice` into `totalSalesBRL` for variable-income
details only, and append the detail to the month's list. -/
def taxStep (acc : List (String × TaxMonthlySummary)) (d : RealizedGainDetail) :
    List (String × TaxMonthlySummary) :=
  let s := (getA? d.month acc).getD (initSummary d.month)
  let s1 :=
    if d.category = AssetCategory.VARIABLE then
      { s with totalSalesBRL := s.totalSalesBRL + d.quantity * d.sellPrice }
    else s
  updA d.month { s1 with details := s1.details ++ [d] } acc

/-- Group the local-country (BR) realized-gain details by month
(part_010 line 236). -/
def groupTax (details : List RealizedGainDetail) :
    List (String × TaxMonthlySummary) :=
  (details.filter (fun d => decide (d.country = Country.BR))).foldl taxStep []

/-- The per-month finalization `forEach` (part_010 lines 256-288): bucket the
month's gains by category, decide the 20000 exemption, and compute
taxable base and tax due. -/
def finalizeSummary (s : TaxMonthlySummary) : TaxMonthlySummary :=
  let g := s.details.foldl (fun (acc : ℚ × ℚ × ℚ) d =>
      if d.category = AssetCategory.FII then (acc.1, acc.2.1 + d.gain, acc.2.2)
      else if d.category = AssetCategory.FIXED then
        (acc.1, acc.2.1, acc.2.2 + d.gain)
      else (acc.1 + d.gain, acc.2.1, acc.2.2)) (0, 0, 0)
  let stockGain := g.1
  let fiiGain := g.2.1
  let fixedIncomeGain := g.2.2
  let isExempt : Bool := decide (s.totalSalesBRL ≤ 20000)
  let stockTax := if isExempt = false ∧ 0 < stockGain then stockGain * 0.15 else 0
  let fiiTax := if 0 < fiiGain then fiiGain * 0.20 else 0
  let fixedIncomeTax := if 0 < fixedIncomeGain then fixedIncomeGain * 0.15 else 0
  { s with
      isExempt := isExempt,
      taxableGainBRL :=
        (if isExempt then 0 else max 0 stockGain) + max 0 fiiGain +
          max 0 fixedIncomeGain,
      taxDueBRL := stockTax + fiiTax + fixedIncomeTax }

/-- Insert a summary into a list sorted descending by month (the
`sort((a,b) => b.month.localeCompare(a.month))` of part_010 line 305,
with ASCII `YYYY-MM` keys where locale order is lexicographic order). -/
def insertSummaryDesc (x : TaxMonthlySummary) :
    List TaxMonthlySummary → List TaxMonthlySummary
  | [] => [x]
  | y :: t => if y.month < x.month then x :: y :: t else y :: insertSummaryDesc x t

/-- Sort summaries descending by month. -/
def sortSummariesDesc (l : List TaxMonthlySummary) : List TaxMonthlySummary :=
  l.foldr insertSummaryDesc []

/-- `taxReport`: group by month, finalize each month, sort descending
(part_010 lines 233-288 and 305). -/
def taxReportOf (details : List RealizedGainDetail) : List TaxMonthlySummary :=
  sortSummariesDesc ((groupTax details).map (fun p => finalizeSummary p.2))

/-! ### Derived definitions used by the verification -/

/-- Total remaining quantity held in a lot list. -/
def lotQty (lots : List Lot) : ℚ := (lots.map (fun l => l.quantity)).sum

/-- Total cost basis (price plus prorated fees) of a lot list's remaining
quantity. -/
def lotCost (lots : List Lot) : ℚ :=
  (lots.map (fun l => l.quantity * (l.unitPrice + buyFeesPerUnit l))).sum

/-- The matched lots produced when every lot is consumed in full. -/
def fullMatches (lots : List Lot) : List MatchedLot :=
  lots.map (fun l =>
    ⟨l.date, l.quantity, l.unitPrice, l.quantity * (l.unitPrice + buyFeesPerUnit l)⟩)

/-- The spec's position invariant: `totalInvested = totalQuantity × averagePrice`. -/
def PosInv (p : Position) : Prop :=
  p.totalInvested = p.totalQuantity * p.averagePrice

/-- Transaction well-formedness as assumed by claim C6 (amended): quantity
and fees non-negative, and both split factors present and positive for a
Split. -/
def txOk (tx : Transaction) : Bool :=
  decide (0 ≤ tx.quantity) && decide (0 ≤ tx.fees) &&
    (if tx.type = TransactionType.SPLIT then
       match tx.splitFrom, tx.splitTo with
       | some f, some g => decide (0 < f) && decide (0 < g)
       | _, _ => false
     else true)

/-- No Sell/Redemption along the replay requests more than its position's
current `totalQuantity`. -/
def noOversell (usdRate : ℚ) (s : EngineState) : List Transaction → Bool
  | [] => true
  | tx :: txs =>
    (if tx.type = TransactionType.SELL ∨ tx.type = TransactionType.REDEMPTION then
       decide (tx.quantity ≤ (resolvePos s tx).totalQuantity)
     else true) &&
    noOversell usdRate (processTx usdRate s tx) txs

/-- The recorded `totalDividends` of a position key (0 when the key has no
position yet). -/
def divOf (s : EngineState) (k : String) : ℚ :=
  ((getA? k s.positions).map Position.totalDividends).getD 0

/-- The details of one month inside the (already country-filtered) detail
list. -/
def monthDetails (m : String) (l : List RealizedGainDetail) :
    List RealizedGainDetail :=
  l.filter (fun d => decide (d.month = m))

/-- `quantity × sellPrice` summed over one month's variable-income details
(of an already country-filtered list). -/
def eqSalesLocal (m : String) (l : List RealizedGainDetail) : ℚ :=
  ((l.filter (fun d =>
      decide (d.month = m) && decide (d.category = AssetCategory.VARIABLE))).map
    (fun d => d.quantity * d.sellPrice)).sum

/-- The BR details of month `m` and category `c` inside a detail list. -/
def brMonthCat (m : String) (c : AssetCategory) (l : List RealizedGainDetail) :
    List RealizedGainDetail :=
  l.filter (fun d =>
    decide (d.country = Country.BR) &&
      (decide (d.month = m) && decide (d.category = c)))

/-- Claim C4's sales total: `quantity × sellPrice` summed over the month's
local-country (BR) variable-income-equity sales. -/
def eqSalesBR (m : String) (l : List RealizedGainDetail) : ℚ :=
  ((brMonthCat m AssetCategory.VARIABLE l).map (fun d => d.quantity * d.sellPrice)).sum

/-- Gain summed over the month's BR details of one category. -/
def catGainBR (m : String) (c : AssetCategory) (l : List RealizedGainDetail) : ℚ :=
  ((brMonthCat m c l).map (fun d => d.gain)).sum

/-- Gain summed over the variable-income details of a list. -/
def gainsVar (l : List RealizedGainDetail) : ℚ :=
  ((l.filter (fun d => decide (d.category = AssetCategory.VARIABLE))).map
    (fun d => d.gain)).sum

/-- Gain summed over the FII (fund) details of a list. -/
def gainsFII (l : List RealizedGainDetail) : ℚ :=
  ((l.filter (fun d => decide (d.category = AssetCategory.FII))).map
    (fun d => d.gain)).sum

/-- Gain summed over the fixed-income details of a list. -/
def gainsFixed (l : List RealizedGainDetail) : ℚ :=
  ((l.filter (fun d => decide (d.category = AssetCategory.FIXED))).map
    (fun d => d.gain)).sum

/-- Invariant of the tax-grouping fold: month keys are distinct, every
processed detail's month has a summary, and each summary's sales total and
detail list agree with the processed prefix. -/
def TaxInv (p : List RealizedGainDetail)
    (acc : List (String × TaxMonthlySummary)) : Prop :=
  ((acc.map Prod.fst).Nodup) ∧
  (∀ d ∈ p, getA? d.month acc ≠ none) ∧
  (∀ ms ∈ acc, ms.2.month = ms.1 ∧ ms.2.totalSalesBRL = eqSalesLocal ms.1 p ∧
    ms.2.details = monthDetails ms.1 p)

/-! ### Concrete scenario inputs -/

/-- Scenario B, lot 1: Buy 100 @ 10 (fees 0). -/
def buyA100at10 : Transaction :=
  ⟨"b1", "2024-01-05", "AAA", "X", Country.BR, AssetCategory.VARIABLE,
   TransactionType.BUY, 100, 10, 0, none, none, none, none⟩

/-- Scenario B, lot 2: Buy 100 @ 20 (fees 0). -/
def buyA100at20 : Transaction :=
  ⟨"b2", "2024-01-10", "AAA", "X", Country.BR, AssetCategory.VARIABLE,
   TransactionType.BUY, 100, 20, 0, none, none, none, none⟩

/-- Scenario B sell: Sell 150 @ 25 (fees 0). -/
def sellA150at25 : Transaction :=
  ⟨"s1", "2024-02-01", "AAA", "X", Country.BR, AssetCategory.VARIABLE,
   TransactionType.SELL, 150, 25, 0, none, none, none, none⟩

/-- Scenario B transaction list. -/
def scenarioB : List Transaction := [buyA100at10, buyA100at20, sellA150at25]

/-- A 1-for-2 split (splitFrom 1, splitTo 2). -/
def splitA1to2 : Transaction :=
  ⟨"sp2", "2024-01-06", "AAA", "X", Country.BR, AssetCategory.VARIABLE,
   TransactionType.SPLIT, 0, 0, 0, some 1, some 2, none, none⟩

/-- Buy 1 @ 10 (fees 0). -/
def buyA1at10 : Transaction :=
  ⟨"b0", "2024-01-05", "AAA", "X", Country.BR, AssetCategory.VARIABLE,
   TransactionType.BUY, 1, 10, 0, none, none, none, none⟩

/-- A reverse split 10^10-for-1: leaves a dust quantity below EPSILON. -/
def splitDust : Transaction :=
  ⟨"sp1", "2024-01-06", "AAA", "X", Country.BR, AssetCategory.VARIABLE,
   TransactionType.SPLIT, 0, 0, 0, some 10000000000, some 1, none, none⟩

/-- Buy 10 @ 10 (fees 0). -/
def buyA10at10 : Transaction :=
  ⟨"b6", "2024-01-05", "AAA", "X", Country.BR, AssetCategory.VARIABLE,
   TransactionType.BUY, 10, 10, 0, none, none, none, none⟩

/-- Sell 100 @ 25: oversells a 10-unit position. -/
def sellA100at25 : Transaction :=
  ⟨"s2", "2024-02-01", "AAA", "X", Country.BR, AssetCategory.VARIABLE,
   TransactionType.SELL, 100, 25, 0, none, none, none, none⟩

/-- Sell 5 @ 25: a covered partial sell. -/
def sellA5at25 : Transaction :=
  ⟨"s3", "2024-02-01", "AAA", "X", Country.BR, AssetCategory.VARIABLE,
   TransactionType.SELL, 5, 25, 0, none, none, none, none⟩

/-- Buy 100 @ 1 (fees 0). -/
def buyA100at1 : Transaction :=
  ⟨"b4", "2024-01-05", "AAA", "X", Country.BR, AssetCategory.VARIABLE,
   TransactionType.BUY, 100, 1, 0, none, none, none, none⟩

/-- Buy a dust lot of 10^-9 @ 1. -/
def buyTiny : Transaction :=
  ⟨"b3", "2024-01-06", "AAA", "X", Country.BR, AssetCategory.VARIABLE,
   TransactionType.BUY, 1 / 1000000000, 1, 0, none, none, none, none⟩

/-- Sell 100 + 5·10^-9 @ 1: exceeds the available 100 + 10^-9 by less than
EPSILON. -/
def sellBand : Transaction :=
  ⟨"s7", "2024-02-01", "AAA", "X", Country.BR, AssetCategory.VARIABLE,
   TransactionType.SELL, 100 + 5 / 1000000000, 1, 0, none, none, none, none⟩

/-- Sell 200 @ 1: exceeds an available 100 by more than EPSILON. -/
def sellA200at1 : Transaction :=
  ⟨"s8", "2024-02-01", "AAA", "X", Country.BR, AssetCategory.VARIABLE,
   TransactionType.SELL, 200, 1, 0, none, none, none, none⟩

/-- Sell 100 @ 15: exactly liquidates a 100-unit position. -/
def sellA100at15 : Transaction :=
  ⟨"s9", "2024-02-01", "AAA", "X", Country.BR, AssetCategory.VARIABLE,
   TransactionType.SELL, 100, 15, 0, none, none, none, none⟩

/-- Dividend of 1 @ 1 with fees 5: negative net amount. -/
def divNegNet : Transaction :=
  ⟨"d1", "2024-02-01", "AAA", "X", Country.BR, AssetCategory.VARIABLE,
   TransactionType.DIVIDEND, 1, 1, 5, none, none, none, none⟩

/-- Dividend of 100 @ 0.5 with fees 0: net 50. -/
def divPosNet : Transaction :=
  ⟨"d2", "2024-02-01", "AAA", "X", Country.BR, AssetCategory.VARIABLE,
   TransactionType.DIVIDEND, 100, 1 / 2, 0, none, none, none, none⟩

/-- Buy 1000 @ 15 of a second ticker. -/
def buyB1000at15 : Transaction :=
  ⟨"b5", "2024-03-01", "BBB", "X", Country.BR, AssetCategory.VARIABLE,
   TransactionType.BUY, 1000, 15, 0, none, none, none, none⟩

/-- Sell 1000 @ 20: gross sales exactly 20000. -/
def sellB1000at20 : Transaction :=
  ⟨"s5", "2024-03-10", "BBB", "X", Country.BR, AssetCategory.VARIABLE,
   TransactionType.SELL, 1000, 20, 0, none, none, none, none⟩

/-- Sell 1000 @ 20.00001: gross sales 20000.01. -/
def sellB1000over : Transaction :=
  ⟨"s6", "2024-03-10", "BBB", "X", Country.BR, AssetCategory.VARIABLE,
   TransactionType.SELL, 1000, 2000001 / 100000, 0, none, none, none, none⟩

/-- A month with equity sales of exactly 20000. -/
def boundaryExempt : List Transaction := [buyB1000at15, sellB1000at20]

/-- A month with equity sales of 20000.01. -/
def boundaryTaxed : List Transaction := [buyB1000at15, sellB1000over]

/-- Two concrete FIFO lots: 100 @ 10 then 100 @ 20, both fee-free. -/
def witLots : List Lot :=
  [⟨"2024-01-05", 100, 10, 0, 100⟩, ⟨"2024-01-10", 100, 20, 0, 100⟩]

/-! ### Association-list lemmas -/

theorem getA?_updA_self {β : Type} (k : String) (v : β)
    (l : List (String × β)) : getA? k (updA k v l) = some v := by
  induction l with
  | nil => simp [updA, getA?]
  | cons p t ih =>
    by_cases h : p.1 = k
    · simp [updA, h, getA?]
    · simp [updA, h, getA?, ih]

theorem getA?_updA_ne {β : Type} {k' k : String} (h : k' ≠ k) (v : β)
    (l : List (String × β)) : getA? k' (updA k v l) = getA? k' l := by
  induction l with
  | nil => simp [updA, getA?, Ne.symm h]
  | cons p t ih =>
    by_cases hp : p.1 = k
    · rw [updA, if_pos hp, getA?, if_neg (Ne.symm h), getA?, if_neg (hp ▸ Ne.symm h)]
    · rw [updA, if_neg hp]
      by_cases hp' : p.1 = k'
      · rw [getA?, if_pos hp', getA?, if_pos hp']
      · rw [getA?, if_neg hp', getA?, if_neg hp', ih]

theorem mem_updA {β : Type} {x : String × β} {k : String} {v : β}
    {l : List (String × β)} (h : x ∈ updA k v l) : x = (k, v) ∨ x ∈ l := by
  induction l with
  | nil => simpa [updA] using h
  | cons p t ih =>
    by_cases hp : p.1 = k
    · simp only [updA, hp, if_true, List.mem_cons] at h
      rcases h with h | h
      · exact Or.inl h
      · exact Or.inr (List.mem_cons_of_mem _ h)
    · simp only [updA, hp, if_false, List.mem_cons] at h
      rcases h with h | h
      · exact Or.inr (h ▸ List.mem_cons_self _ _)
      · rcases ih h with h' | h'
        · exact Or.inl h'
        · exact Or.inr (List.mem_cons_of_mem _ h')

theorem getA?_mem {β : Type} {k : String} {v : β} :
    ∀ {l : List (String × β)}, getA? k l = some v → (k, v) ∈ l := by
  intro l
  induction l with
  | nil => intro h; simp [getA?] at h
  | cons p t ih =>
    intro h
    by_cases hp : p.1 = k
    · simp only [getA?, hp, if_true, Option.some.injEq] at h
      obtain ⟨a, b⟩ := p
      obtain rfl : b = v := h
      obtain rfl : a = k := hp
      exact List.mem_cons_self _ _
    · simp only [getA?, hp, if_false] at h
      exact List.mem_cons_of_mem _ (ih h)

theorem getA?_eq_none {β : Type} {k : String} {l : List (String × β)}
    (h : getA? k l = none) : ∀ v : β, (k, v) ∉ l := by
  induction l with
  | nil => simp
  | cons p t ih =>
    by_cases hp : p.1 = k
    · simp [getA?, hp] at h
    · simp only [getA?, hp, if_false] at h
      intro v hv
      rcases List.mem_cons.1 hv with hv | hv
      · exact hp (by rw [← hv])
      · exact ih h v hv

theorem keys_updA {β : Type} (k : String) (v : β) (l : List (String × β)) :
    (updA k v l).map Prod.fst =
      if k ∈ l.map Prod.fst then l.map Prod.fst else l.map Prod.fst ++ [k] := by
  induction l with
  | nil => simp [updA]
  | cons p t ih =>
    by_cases hp : p.1 = k
    · simp [updA, hp]
    · simp only [updA, hp, if_false, List.map_cons, ih]
      by_cases hk : k ∈ t.map Prod.fst
      · rw [if_pos hk, if_pos (List.mem_cons_of_mem _ hk)]
      · rw [if_neg hk, if_neg ?side, List.cons_append]
        case side =>
          intro hmem
          rcases List.mem_cons.1 hmem with h' | h'
          · exact hp h'.symm
          · exact hk h'

theorem keys_nodup_updA {β : Type} {k : String} {v : β}
    {l : List (String × β)} (h : (l.map Prod.fst).Nodup) :
    ((updA k v l).map Prod.fst).Nodup := by
  rw [keys_updA]
  by_cases hk : k ∈ l.map Prod.fst
  · simpa [hk] using h
  · rw [if_neg hk, List.nodup_append]
    refine ⟨h, List.nodup_singleton _, ?_⟩
    intro a ha hb
    rw [List.mem_singleton] at hb
    exact hk (hb ▸ ha)

theorem mem_updA_nodup {β : Type} {x : String × β} {k : String} {v : β}
    {l : List (String × β)} (hn : (l.map Prod.fst).Nodup)
    (h : x ∈ updA k v l) : x = (k, v) ∨ (x ∈ l ∧ x.1 ≠ k) := by
  induction l with
  | nil => simpa [updA] using h
  | cons p t ih =>
    simp only [List.map_cons, List.nodup_cons] at hn
    by_cases hp : p.1 = k
    · simp only [updA, hp, if_true, List.mem_cons] at h
      rcases h with h | h
      · exact Or.inl h
      · refine Or.inr ⟨List.mem_cons_of_mem _ h, ?_⟩
        intro hxk
        exact hn.1 (hp ▸ hxk ▸ List.mem_map_of_mem Prod.fst h)
    · simp only [updA, hp, if_false, List.mem_cons] at h
      rcases h with h | h
      · exact Or.inr ⟨h ▸ List.mem_cons_self _ _, h ▸ hp⟩
      · rcases ih hn.2 h with h' | h'
        · exact Or.inl h'
        · exact Or.inr ⟨List.mem_cons_of_mem _ h'.1, h'.2⟩

/-! ### Lemmas about the FIFO consumption loop -/

theorem EPSILON_pos : 0 < EPSILON := by norm_num [EPSILON]

/-- If the remaining quantity is already within epsilon, the loop does not
start, whatever the fuel. -/
theorem consumeLoop_stop {r : ℚ} (h : r ≤ EPSILON) :
    ∀ (n : Nat) (lots : List Lot), consumeLoop n r lots = ([], lots, 0) := by
  intro n lots
  cases n with
  | zero => rfl
  | succ m =>
    cases lots with
    | nil => rfl
    | cons a t => simp [consumeLoop, not_lt.2 h]

theorem consumeLots_nil (r : ℚ) : consumeLots r [] = ([], [], 0) := rfl

/-- Unfolding equation for `consumeLots` on a non-empty lot list.  In the
"head kept" branch the consumed amount is necessarily the whole remaining
quantity (`min r h.quantity < h.quantity` forces `min r h.quantity = r`), so
the loop's next iteration immediately stops. -/
theorem consumeLots_cons (r : ℚ) (h : Lot) (t : List Lot) :
    consumeLots r (h :: t) =
      if EPSILON < r then
        if h.quantity - min r h.quantity ≤ EPSILON then
          ((⟨h.date, min r h.quantity, h.unitPrice,
              min r h.quantity * (h.unitPrice + buyFeesPerUnit h)⟩ : MatchedLot) ::
             (consumeLots (r - min r h.quantity) t).1,
           (consumeLots (r - min r h.quantity) t).2.1,
           min r h.quantity * (h.unitPrice + buyFeesPerUnit h) +
             (consumeLots (r - min r h.quantity) t).2.2)
        else
          ([⟨h.date, min r h.quantity, h.unitPrice,
              min r h.quantity * (h.unitPrice + buyFeesPerUnit h)⟩],
           { h with quantity := h.quantity - min r h.quantity } :: t,
           min r h.quantity * (h.unitPrice + buyFeesPerUnit h))
      else ([], h :: t, 0) := by
  show consumeLoop (Nat.succ (t.length + 1)) r (h :: t) = _
  rw [consumeLoop]
  by_cases hr : EPSILON < r
  · by_cases hq : h.quantity - min r h.quantity ≤ EPSILON
    · simp only [hr, if_true, hq, consumeLots]
    · have hcr : min r h.quantity = r := by
        rcases min_cases r h.quantity with hc | hc
        · exact hc.1
        · exact absurd (by rw [hc.1, sub_self]; exact le_of_lt EPSILON_pos) hq
      simp only [hr, if_true, hq, if_false]
      rw [hcr]
      rw [consumeLoop_stop (by rw [sub_self]; exact le_of_lt EPSILON_pos)]
      simp
  · simp only [hr, if_false]

theorem consumeLots_length (r : ℚ) (lots : List Lot) :
    ((consumeLots r lots).1).length ≤ lots.length := by
  induction lots generalizing r with
  | nil => simp [consumeLots_nil]
  | cons h t ih =>
    rw [consumeLots_cons]
    by_cases hr : EPSILON < r
    · by_cases hq : h.quantity - min r h.quantity ≤ EPSILON
      · simp only [if_pos hr, if_pos hq, List.length_cons]
        exact Nat.succ_le_succ (ih _)
      · simp only [if_pos hr, if_neg hq, List.length_cons, List.length_singleton]
        exact Nat.succ_le_succ (Nat.zero_le _)
    · simp [if_neg hr]

/-- FIFO alignment: the i-th matched lot comes from the i-th lot (lots are
kept oldest-first), every matched lot except possibly the last consumes its
lot in full, no match ever exceeds its lot's remaining quantity, and each
match's cost basis is `consumed * (unitPrice + prorated buy fees)`. -/
theorem consumeLots_align (lots : List Lot) : ∀ (r : ℚ) (i : Nat) (m : MatchedLot),
    ((consumeLots r lots).1).get? i = some m →
    ∃ l, lots.get? i = some l ∧ m.buyDate = l.date ∧ m.buyPrice = l.unitPrice ∧
      m.quantity ≤ l.quantity ∧
      (((consumeLots r lots).1).get? (i + 1) ≠ none → m.quantity = l.quantity) ∧
      m.costBasis = m.quantity * (l.unitPrice + buyFeesPerUnit l) := by
  induction lots with
  | nil =>
    intro r i m hm
    rw [consumeLots_nil] at hm
    simp at hm
  | cons h t ih =>
    intro r i m
    rw [consumeLots_cons]
    by_cases hr : EPSILON < r
    · by_cases hq : h.quantity - min r h.quantity ≤ EPSILON
      · rw [if_pos hr, if_pos hq]
        cases i with
        | zero =>
          intro hm
          rw [List.get?_cons_zero, Option.some.injEq] at hm
          refine ⟨h, rfl, ?_, ?_, ?_, ?_, ?_⟩
          · rw [← hm]
          · rw [← hm]
          · rw [← hm]; exact min_le_right _ _
          · intro hne
            rw [← hm]
            rcases min_cases r h.quantity with hc | hc
            · exfalso
              apply hne
              rw [List.get?_cons_succ, hc.1, sub_self,
                consumeLots, consumeLoop_stop (le_of_lt EPSILON_pos)]
              rfl
            · exact hc.1
          · rw [← hm]
        | succ i =>
          intro hm
          rw [List.get?_cons_succ] at hm
          obtain ⟨l, hl, h1, h2, h3, h4, h5⟩ := ih (r - min r h.quantity) i m hm
          refine ⟨l, by rwa [List.get?_cons_succ], h1, h2, h3, ?_, h5⟩
          intro hne
          rw [List.get?_cons_succ] at hne
          exact h4 hne
      · rw [if_pos hr, if_neg hq]
        cases i with
        | zero =>
          intro hm
          rw [List.get?_cons_zero, Option.some.injEq] at hm
          refine ⟨h, rfl, ?_, ?_, ?_, ?_, ?_⟩
          · rw [← hm]
          · rw [← hm]
          · rw [← hm]; exact min_le_right _ _
          · intro hne
            exact absurd rfl hne
          · rw [← hm]
        | succ i =>
          intro hm
          rw [List.get?_cons_succ] at hm
          simp at hm
    · rw [if_neg hr]
      intro hm
      simp at hm

theorem lotQty_nonneg {lots : List Lot} (h : ∀ l ∈ lots, 0 ≤ l.quantity) :
    0 ≤ lotQty lots := by
  refine List.sum_nonneg ?_
  intro q hq
  obtain ⟨l, hl, rfl⟩ := List.mem_map.1 hq
  exact h l hl

/-- When the requested quantity exceeds the total available by more than
EPSILON, every lot is consumed in full: the loop stops only when the lots
run out. -/
theorem consumeLots_exhaust (lots : List Lot) : ∀ r : ℚ,
    (∀ l ∈ lots, 0 ≤ l.quantity) → lotQty lots + EPSILON < r →
    consumeLots r lots = (fullMatches lots, [], lotCost lots) := by
  induction lots with
  | nil =>
    intro r _ _
    rw [consumeLots_nil]
    simp [fullMatches, lotCost]
  | cons h t ih =>
    intro r hnn hr
    have hq0 : 0 ≤ h.quantity := hnn h (List.mem_cons_self _ _)
    have htq : 0 ≤ lotQty t := lotQty_nonneg fun l hl => hnn l (List.mem_cons_of_mem _ hl)
    have hsum : lotQty (h :: t) = h.quantity + lotQty t := by simp [lotQty]
    have hhr : h.quantity < r := by rw [hsum] at hr; nlinarith [EPSILON_pos]
    have hrr : EPSILON < r := by rw [hsum] at hr; nlinarith
    have hc : min r h.quantity = h.quantity := min_eq_right (le_of_lt hhr)
    rw [consumeLots_cons, if_pos hrr, hc,
      if_pos (by rw [sub_self]; exact le_of_lt EPSILON_pos),
      ih (r - h.quantity) (fun l hl => hnn l (List.mem_cons_of_mem _ hl))
        (by rw [hsum] at hr; linarith)]
    simp [fullMatches, lotCost]

/-- The matched quantities of a full consumption sum to the total available
quantity. -/
theorem fullMatches_qty_sum (lots : List Lot) :
    ((fullMatches lots).map (fun m => m.quantity)).sum = lotQty lots := by
  simp only [fullMatches, lotQty, List.map_map]
  rfl

/-- Lot quantities stay non-negative through FIFO consumption. -/
theorem consumeLots_lots_nonneg (lots : List Lot) : ∀ r : ℚ,
    (∀ l ∈ lots, 0 ≤ l.quantity) →
    ∀ l' ∈ (consumeLots r lots).2.1, 0 ≤ l'.quantity := by
  induction lots with
  | nil =>
    intro r _ l' hm
    rw [consumeLots_nil] at hm
    simp at hm
  | cons h t ih =>
    intro r hnn l' hm
    rw [consumeLots_cons] at hm
    by_cases hr : EPSILON < r
    · by_cases hq : h.quantity - min r h.quantity ≤ EPSILON
      · rw [if_pos hr, if_pos hq] at hm
        exact ih _ (fun l hl => hnn l (List.mem_cons_of_mem _ hl)) l' hm
      · rw [if_pos hr, if_neg hq] at hm
        rcases List.mem_cons.1 hm with rfl | hm'
        · exact sub_nonneg.2 (min_le_right r h.quantity)
        · exact hnn l' (List.mem_cons_of_mem _ hm')
    · rw [if_neg hr] at hm
      exact hnn l' hm

theorem foldl_add_quantity (lots : List Lot) : ∀ a : ℚ,
    lots.foldl (fun b l => b + l.quantity) a = a + lotQty lots := by
  induction lots with
  | nil => intro a; simp [lotQty]
  | cons h t ih =>
    intro a
    rw [List.foldl_cons, ih]
    simp [lotQty]
    ring

/-! ### Replay step lemmas -/

theorem dispatch_buy {u : ℚ} {s : EngineState} {tx : Transaction}
    {pos : Position} (h : tx.type = TransactionType.BUY) :
    dispatch u s tx pos = buyBranch u s tx pos := by
  unfold dispatch; rw [h]

theorem dispatch_bonus {u : ℚ} {s : EngineState} {tx : Transaction}
    {pos : Position} (h : tx.type = TransactionType.BONUS) :
    dispatch u s tx pos = bonusBranch s tx pos := by
  unfold dispatch; rw [h]

theorem dispatch_split {u : ℚ} {s : EngineState} {tx : Transaction}
    {pos : Position} (h : tx.type = TransactionType.SPLIT) :
    dispatch u s tx pos = splitBranch s tx pos := by
  unfold dispatch; rw [h]

theorem dispatch_sell {u : ℚ} {s : EngineState} {tx : Transaction}
    {pos : Position}
    (h : tx.type = TransactionType.SELL ∨ tx.type = TransactionType.REDEMPTION) :
    dispatch u s tx pos = sellBranch u s tx pos := by
  unfold dispatch; rcases h with h | h <;> rw [h]

theorem dispatch_dividend {u : ℚ} {s : EngineState} {tx : Transaction}
    {pos : Position} (h : tx.type = TransactionType.DIVIDEND) :
    dispatch u s tx pos = dividendBranch u s tx pos := by
  unfold dispatch; rw [h]

theorem splitBranch_snd (s : EngineState) (tx : Transaction) (pos : Position) :
    (splitBranch s tx pos).2 = s := by
  rcases hf : tx.splitFrom with _ | f
  · simp [splitBranch, hf]
  · rcases hg : tx.splitTo with _ | g
    · simp [splitBranch, hf, hg]
    · simp only [splitBranch, hf, hg]
      split <;> rfl

theorem dispatch_snd_positions (u : ℚ) (s : EngineState) (tx : Transaction)
    (pos : Position) : (dispatch u s tx pos).2.positions = s.positions := by
  cases htype : tx.type
  case BUY => rw [dispatch_buy htype]; rfl
  case SELL => rw [dispatch_sell (Or.inl htype)]; rfl
  case DIVIDEND => rw [dispatch_dividend htype]; rfl
  case BONUS => rw [dispatch_bonus htype]; rfl
  case SPLIT => rw [dispatch_split htype, splitBranch_snd]
  case REDEMPTION => rw [dispatch_sell (Or.inr htype)]; rfl

theorem processTx_positions (u : ℚ) (s : EngineState) (tx : Transaction) :
    (processTx u s tx).positions =
      updA (posKey tx) (dispatch u s tx (resolvePos s tx)).1 s.positions := by
  show updA (posKey tx) (dispatch u s tx (resolvePos s tx)).1
    (dispatch u s tx (resolvePos s tx)).2.positions = _
  rw [dispatch_snd_positions]

theorem resolvePos_processTx (u : ℚ) (s : EngineState) (tx : Transaction) :
    resolvePos (processTx u s tx) tx = (dispatch u s tx (resolvePos s tx)).1 := by
  unfold resolvePos
  rw [processTx_positions, getA?_updA_self]
  rfl

theorem processTx_mem_positions {u : ℚ} {s : EngineState} {tx : Transaction}
    {x : String × Position} (h : x ∈ (processTx u s tx).positions) :
    x = (posKey tx, (dispatch u s tx (resolvePos s tx)).1) ∨ x ∈ s.positions := by
  rw [processTx_positions] at h
  exact mem_updA h

theorem processTx_lastKnownPrices (u : ℚ) (s : EngineState) (tx : Transaction) :
    (processTx u s tx).lastKnownPrices =
      updA (tickerKey tx) tx.unitPrice s.lastKnownPrices := rfl

theorem processTx_currentQuantities (u : ℚ) (s : EngineState) (tx : Transaction) :
    (processTx u s tx).currentQuantities =
      updA (tickerKey tx)
        ((getA? (tickerKey tx) s.currentQuantities).getD 0 + qtyChange tx)
        s.currentQuantities := rfl

theorem pushPoint_getLast (pt : HistoricalPoint) (hist : List HistoricalPoint) :
    (pushPoint pt hist).getLast? = some pt := by
  unfold pushPoint
  cases h : hist.getLast? with
  | none => exact List.getLast?_concat _
  | some lp =>
    by_cases hd : lp.date = pt.date
    · simp only [if_pos hd]
      exact List.getLast?_concat _
    · simp only [if_neg hd]
      exact List.getLast?_concat _

theorem processTx_historicalEquity (u : ℚ) (s : EngineState) (tx : Transaction) :
    (processTx u s tx).historicalEquity =
      pushPoint
        ⟨tx.date,
         marketValue u (processTx u s tx).currentQuantities
             (processTx u s tx).lastKnownPrices +
           (processTx u s tx).accumulatedRealizedGainBRL,
         (processTx u s tx).totalInvestedBRL⟩
        s.historicalEquity := rfl

/-! ### The position invariant through the replay -/

theorem initPosition_posInv (tx : Transaction) : PosInv (initPosition tx) := by
  simp [PosInv, initPosition]

theorem buyBranch_posInv (u : ℚ) (s : EngineState) (tx : Transaction)
    (pos : Position) : PosInv (buyBranch u s tx pos).1 := rfl

theorem bonusBranch_posInv {s : EngineState} {tx : Transaction} {pos : Position}
    (hq : EPSILON < (bonusBranch s tx pos).1.totalQuantity) :
    PosInv (bonusBranch s tx pos).1 := by
  have hq' : EPSILON < pos.totalQuantity + tx.quantity := hq
  show pos.totalInvested = (pos.totalQuantity + tx.quantity) *
    (if EPSILON < pos.totalQuantity + tx.quantity then
       pos.totalInvested / (pos.totalQuantity + tx.quantity)
     else pos.averagePrice)
  rw [if_pos hq', mul_comm, div_mul_cancel₀]
  exact ne_of_gt (lt_trans EPSILON_pos hq')

theorem posInv_recompute (pos : Position) (lots2 : List Lot) (L : ℚ)
    (hq : EPSILON < L) :
    PosInv
      { pos with
          lots := lots2
          totalQuantity := L
          averagePrice := if EPSILON < L then pos.totalInvested / L else 0 } := by
  show pos.totalInvested = L * (if EPSILON < L then pos.totalInvested / L else 0)
  rw [if_pos hq, mul_comm, div_mul_cancel₀]
  exact ne_of_gt (lt_trans EPSILON_pos hq)

theorem splitBranch_posInv {s : EngineState} {tx : Transaction} {pos : Position}
    (h : EPSILON < pos.totalQuantity → PosInv pos)
    (hq : EPSILON < (splitBranch s tx pos).1.totalQuantity) :
    PosInv (splitBranch s tx pos).1 := by
  rcases hf : tx.splitFrom with _ | f
  · simp only [splitBranch, hf] at hq ⊢
    exact h hq
  · rcases hg : tx.splitTo with _ | g
    · simp only [splitBranch, hf, hg] at hq ⊢
      exact h hq
    · by_cases hcond : f ≠ 0 ∧ g ≠ 0 ∧ 0 < f
      · simp only [splitBranch, hf, hg, if_pos hcond] at hq ⊢
        exact posInv_recompute pos _ _ hq
      · simp only [splitBranch, hf, hg, if_neg hcond] at hq ⊢
        exact h hq

theorem sellBranch_posInv (u : ℚ) (s : EngineState) (tx : Transaction)
    (pos : Position) : PosInv (sellBranch u s tx pos).1 := by
  unfold sellBranch PosInv
  dsimp only
  split_ifs with h
  · simp
  · have hne : pos.totalQuantity - tx.quantity ≠ 0 := by
      intro h0
      rw [h0] at h
      exact h (by simpa using EPSILON_pos)
    rw [mul_comm, div_mul_cancel₀]
    exact hne

theorem dividendBranch_posInv {u : ℚ} {s : EngineState} {tx : Transaction}
    {pos : Position} (h : PosInv pos) : PosInv (dividendBranch u s tx pos).1 := h

theorem dispatch_posInv {u : ℚ} {s : EngineState} {tx : Transaction}
    {pos : Position} (h : EPSILON < pos.totalQuantity → PosInv pos)
    (hq : EPSILON < (dispatch u s tx pos).1.totalQuantity) :
    PosInv (dispatch u s tx pos).1 := by
  cases htype : tx.type
  case BUY => rw [dispatch_buy htype]; exact buyBranch_posInv u s tx pos
  case BONUS =>
    rw [dispatch_bonus htype] at hq ⊢
    exact bonusBranch_posInv hq
  case SPLIT =>
    rw [dispatch_split htype] at hq ⊢
    exact splitBranch_posInv h hq
  case SELL => rw [dispatch_sell (Or.inl htype)]; exact sellBranch_posInv u s tx pos
  case REDEMPTION =>
    rw [dispatch_sell (Or.inr htype)]; exact sellBranch_posInv u s tx pos
  case DIVIDEND =>
    rw [dispatch_dividend htype] at hq ⊢
    exact dividendBranch_posInv (h hq)

theorem resolvePos_posInv {s : EngineState} {tx : Transaction}
    (hs : ∀ kp ∈ s.positions, EPSILON < kp.2.totalQuantity → PosInv kp.2) :
    EPSILON < (resolvePos s tx).totalQuantity → PosInv (resolvePos s tx) := by
  unfold resolvePos
  cases hg : getA? (posKey tx) s.positions with
  | none =>
    intro _
    simp [PosInv, initPosition]
  | some p =>
    simp only [Option.getD_some]
    exact hs (posKey tx, p) (getA?_mem hg)

theorem foldl_posInv (u : ℚ) : ∀ (txs : List Transaction) (s : EngineState),
    (∀ kp ∈ s.positions, EPSILON < kp.2.totalQuantity → PosInv kp.2) →
    ∀ kp ∈ (txs.foldl (processTx u) s).positions,
      EPSILON < kp.2.totalQuantity → PosInv kp.2 := by
  intro txs
  induction txs with
  | nil => intro s hs; exact hs
  | cons tx rest ih =>
    intro s hs
    rw [List.foldl_cons]
    apply ih
    intro kp hkp
    rcases processTx_mem_positions hkp with hkp' | hmem
    · rw [hkp']
      exact fun hq => dispatch_posInv (resolvePos_posInv hs) hq
    · exact hs kp hmem

theorem replay_posInv (u : ℚ) (txs : List Transaction) :
    ∀ kp ∈ (replay u txs).positions, EPSILON < kp.2.totalQuantity → PosInv kp.2 :=
  foldl_posInv u txs initState (by simp [initState])

/-! ### Per-branch field equations -/

theorem buyBranch_fst_totalQuantity (u : ℚ) (s : EngineState) (tx : Transaction)
    (pos : Position) :
    (buyBranch u s tx pos).1.totalQuantity = pos.totalQuantity + tx.quantity := rfl

theorem buyBranch_fst_lots (u : ℚ) (s : EngineState) (tx : Transaction)
    (pos : Position) :
    (buyBranch u s tx pos).1.lots =
      pos.lots ++ [⟨tx.date, tx.quantity, tx.unitPrice, tx.fees, tx.quantity⟩] := rfl

theorem bonusBranch_fst_totalQuantity (s : EngineState) (tx : Transaction)
    (pos : Position) :
    (bonusBranch s tx pos).1.totalQuantity = pos.totalQuantity + tx.quantity := rfl

theorem bonusBranch_fst_lots (s : EngineState) (tx : Transaction)
    (pos : Position) :
    (bonusBranch s tx pos).1.lots =
      pos.lots ++ [⟨tx.date, tx.quantity, 0, 0, tx.quantity⟩] := rfl

theorem dividendBranch_fst (u : ℚ) (s : EngineState) (tx : Transaction)
    (pos : Position) :
    (dividendBranch u s tx pos).1 =
      { pos with totalDividends :=
          pos.totalDividends + (tx.quantity * tx.unitPrice - tx.fees) } := rfl

theorem splitBranch_fst {s : EngineState} {tx : Transaction} {pos : Position}
    {f g : ℚ} (hf : tx.splitFrom = some f) (hg : tx.splitTo = some g)
    (hcond : f ≠ 0 ∧ g ≠ 0 ∧ 0 < f) :
    (splitBranch s tx pos).1 =
      { pos with
          lots := pos.lots.map (rescaleLot (g / f))
          totalQuantity :=
            (pos.lots.map (rescaleLot (g / f))).foldl (fun a l => a + l.quantity) 0
          averagePrice :=
            if EPSILON <
                (pos.lots.map (rescaleLot (g / f))).foldl
                  (fun a l => a + l.quantity) 0 then
              pos.totalInvested /
                (pos.lots.map (rescaleLot (g / f))).foldl
                  (fun a l => a + l.quantity) 0
            else 0 } := by
  simp [splitBranch, hf, hg, hcond]

theorem splitBranch_fst_totalDividends (s : EngineState) (tx : Transaction)
    (pos : Position) :
    (splitBranch s tx pos).1.totalDividends = pos.totalDividends := by
  rcases hf : tx.splitFrom with _ | f
  · simp [splitBranch, hf]
  · rcases hg : tx.splitTo with _ | g
    · simp [splitBranch, hf, hg]
    · simp only [splitBranch, hf, hg]
      split <;> rfl

theorem sellBranch_fst_lots (u : ℚ) (s : EngineState) (tx : Transaction)
    (pos : Position) :
    (sellBranch u s tx pos).1.lots = (consumeLots tx.quantity pos.lots).2.1 := by
  unfold sellBranch
  dsimp only
  split_ifs <;> rfl

theorem sellBranch_fst_totalQuantity (u : ℚ) (s : EngineState) (tx : Transaction)
    (pos : Position) :
    (sellBranch u s tx pos).1.totalQuantity =
      if |pos.totalQuantity - tx.quantity| < EPSILON then 0
      else pos.totalQuantity - tx.quantity := by
  unfold sellBranch
  dsimp only
  split_ifs <;> rfl

theorem sellBranch_fst_totalDividends (u : ℚ) (s : EngineState)
    (tx : Transaction) (pos : Position) :
    (sellBranch u s tx pos).1.totalDividends = pos.totalDividends := by
  unfold sellBranch
  dsimp only
  split_ifs <;> rfl

theorem sellBranch_snd_sellMatches (u : ℚ) (s : EngineState) (tx : Transaction)
    (pos : Position) :
    (sellBranch u s tx pos).2.sellMatches =
      updA tx.id (consumeLots tx.quantity pos.lots).1 s.sellMatches := rfl

theorem sellBranch_snd_details (u : ℚ) (s : EngineState) (tx : Transaction)
    (pos : Position) :
    (sellBranch u s tx pos).2.realizedGainDetails =
      s.realizedGainDetails ++
        [⟨tx.id, tx.date, tx.ticker, tx.broker, tx.country, tx.category,
          tx.quantity, tx.unitPrice, (consumeLots tx.quantity pos.lots).2.2,
          (tx.quantity * tx.unitPrice - tx.fees) -
            (consumeLots tx.quantity pos.lots).2.2,
          tx.date.take 7⟩] := rfl

theorem processTx_sellMatches (u : ℚ) (s : EngineState) (tx : Transaction) :
    (processTx u s tx).sellMatches =
      (dispatch u s tx (resolvePos s tx)).2.sellMatches := rfl

theorem processTx_details (u : ℚ) (s : EngineState) (tx : Transaction) :
    (processTx u s tx).realizedGainDetails =
      (dispatch u s tx (resolvePos s tx)).2.realizedGainDetails := rfl

/-! ### Quantity non-negativity (claim C6) -/

theorem txOk_spec {tx : Transaction} (h : txOk tx = true) :
    0 ≤ tx.quantity ∧ 0 ≤ tx.fees ∧
      (tx.type = TransactionType.SPLIT →
        ∃ f g, tx.splitFrom = some f ∧ tx.splitTo = some g ∧ 0 < f ∧ 0 < g) := by
  simp only [txOk, Bool.and_eq_true, decide_eq_true_eq] at h
  refine ⟨h.1.1, h.1.2, ?_⟩
  intro htype
  have h2 := h.2
  rw [if_pos htype] at h2
  rcases hf : tx.splitFrom with _ | f
  · rw [hf] at h2; simp at h2
  · rcases hg : tx.splitTo with _ | g
    · rw [hf, hg] at h2; simp at h2
    · rw [hf, hg] at h2
      simp only [Bool.and_eq_true, decide_eq_true_eq] at h2
      exact ⟨f, g, rfl, rfl, h2.1, h2.2⟩

theorem dispatch_nonneg {u : ℚ} {s : EngineState} {tx : Transaction}
    {pos : Position} (hq : 0 ≤ pos.totalQuantity)
    (hl : ∀ l ∈ pos.lots, 0 ≤ l.quantity) (hok : txOk tx = true)
    (hsell : tx.type = TransactionType.SELL ∨
        tx.type = TransactionType.REDEMPTION → tx.quantity ≤ pos.totalQuantity) :
    0 ≤ (dispatch u s tx pos).1.totalQuantity ∧
      ∀ l ∈ (dispatch u s tx pos).1.lots, 0 ≤ l.quantity := by
  obtain ⟨hq0, _, hsplit⟩ := txOk_spec hok
  cases htype : tx.type
  case BUY =>
    rw [dispatch_buy htype]
    refine ⟨?_, ?_⟩
    · rw [buyBranch_fst_totalQuantity]; exact add_nonneg hq hq0
    · rw [buyBranch_fst_lots]
      intro l hm
      rcases List.mem_append.1 hm with hm | hm
      · exact hl l hm
      · rw [List.mem_singleton] at hm; subst hm; exact hq0
  case BONUS =>
    rw [dispatch_bonus htype]
    refine ⟨?_, ?_⟩
    · rw [bonusBranch_fst_totalQuantity]; exact add_nonneg hq hq0
    · rw [bonusBranch_fst_lots]
      intro l hm
      rcases List.mem_append.1 hm with hm | hm
      · exact hl l hm
      · rw [List.mem_singleton] at hm; subst hm; exact hq0
  case SPLIT =>
    rw [dispatch_split htype]
    obtain ⟨f, g, hf, hg, hfp, hgp⟩ := hsplit htype
    rw [splitBranch_fst hf hg ⟨ne_of_gt hfp, ne_of_gt hgp, hfp⟩]
    have hr : (0 : ℚ) < g / f := div_pos hgp hfp
    have hlots : ∀ l ∈ pos.lots.map (rescaleLot (g / f)), 0 ≤ l.quantity := by
      intro l hm
      obtain ⟨l0, hl0, rfl⟩ := List.mem_map.1 hm
      show 0 ≤ l0.quantity * (g / f)
      exact mul_nonneg (hl l0 hl0) (le_of_lt hr)
    refine ⟨?_, hlots⟩
    show 0 ≤ (pos.lots.map (rescaleLot (g / f))).foldl (fun a l => a + l.quantity) 0
    rw [foldl_add_quantity]
    simpa using lotQty_nonneg hlots
  case SELL =>
    rw [dispatch_sell (Or.inl htype)]
    refine ⟨?_, ?_⟩
    · rw [sellBranch_fst_totalQuantity]
      split_ifs
      · exact le_refl 0
      · exact sub_nonneg.2 (hsell (Or.inl htype))
    · rw [sellBranch_fst_lots]
      exact consumeLots_lots_nonneg pos.lots tx.quantity hl
  case REDEMPTION =>
    rw [dispatch_sell (Or.inr htype)]
    refine ⟨?_, ?_⟩
    · rw [sellBranch_fst_totalQuantity]
      split_ifs
      · exact le_refl 0
      · exact sub_nonneg.2 (hsell (Or.inr htype))
    · rw [sellBranch_fst_lots]
      exact consumeLots_lots_nonneg pos.lots tx.quantity hl
  case DIVIDEND =>
    rw [dispatch_dividend htype, dividendBranch_fst]
    exact ⟨hq, hl⟩

theorem resolvePos_nonneg {s : EngineState} (tx : Transaction)
    (hs : ∀ kp ∈ s.positions,
      0 ≤ kp.2.totalQuantity ∧ ∀ l ∈ kp.2.lots, 0 ≤ l.quantity) :
    0 ≤ (resolvePos s tx).totalQuantity ∧
      ∀ l ∈ (resolvePos s tx).lots, 0 ≤ l.quantity := by
  unfold resolvePos
  cases hg : getA? (posKey tx) s.positions with
  | none => simp [initPosition]
  | some p =>
    simp only [Option.getD_some]
    exact hs (posKey tx, p) (getA?_mem hg)

theorem foldl_nonneg (u : ℚ) : ∀ (txs : List Transaction) (s : EngineState),
    (∀ tx ∈ txs, txOk tx = true) → noOversell u s txs = true →
    (∀ kp ∈ s.positions,
      0 ≤ kp.2.totalQuantity ∧ ∀ l ∈ kp.2.lots, 0 ≤ l.quantity) →
    ∀ kp ∈ (txs.foldl (processTx u) s).positions,
      0 ≤ kp.2.totalQuantity ∧ ∀ l ∈ kp.2.lots, 0 ≤ l.quantity := by
  intro txs
  induction txs with
  | nil => intro s _ _ hs; exact hs
  | cons tx rest ih =>
    intro s hok hno hs
    rw [List.foldl_cons]
    rw [noOversell, Bool.and_eq_true] at hno
    apply ih _ (fun t ht => hok t (List.mem_cons_of_mem _ ht)) hno.2
    intro kp hkp
    rcases processTx_mem_positions hkp with hkp' | hmem
    · rw [hkp']
      have hres := resolvePos_nonneg tx hs
      apply dispatch_nonneg hres.1 hres.2 (hok tx (List.mem_cons_self _ _))
      intro hsell
      have h1 := hno.1
      rw [if_pos hsell] at h1
      exact of_decide_eq_true h1
    · exact hs kp hmem

/-! ### Dividend accumulation (claim C9) -/

theorem dispatch_totalDividends {u : ℚ} {s : EngineState} {tx : Transaction}
    {pos : Position} (h : tx.type ≠ TransactionType.DIVIDEND) :
    (dispatch u s tx pos).1.totalDividends = pos.totalDividends := by
  cases htype : tx.type
  case BUY => rw [dispatch_buy htype]; rfl
  case BONUS => rw [dispatch_bonus htype]; rfl
  case SPLIT => rw [dispatch_split htype]; exact splitBranch_fst_totalDividends s tx pos
  case SELL =>
    rw [dispatch_sell (Or.inl htype)]; exact sellBranch_fst_totalDividends u s tx pos
  case REDEMPTION =>
    rw [dispatch_sell (Or.inr htype)]; exact sellBranch_fst_totalDividends u s tx pos
  case DIVIDEND => exact absurd htype h

theorem dispatch_totalDividends_dividend {u : ℚ} {s : EngineState}
    {tx : Transaction} {pos : Position} (h : tx.type = TransactionType.DIVIDEND) :
    (dispatch u s tx pos).1.totalDividends =
      pos.totalDividends + (tx.quantity * tx.unitPrice - tx.fees) := by
  rw [dispatch_dividend h]; rfl

theorem divOf_resolve (s : EngineState) (tx : Transaction) :
    divOf s (posKey tx) = (resolvePos s tx).totalDividends := by
  unfold divOf resolvePos
  cases hg : getA? (posKey tx) s.positions <;> simp [initPosition]

theorem processTx_divOf_key (u : ℚ) (s : EngineState) (tx : Transaction) :
    divOf (processTx u s tx) (posKey tx) =
      (dispatch u s tx (resolvePos s tx)).1.totalDividends := by
  unfold divOf
  rw [processTx_positions, getA?_updA_self]
  rfl

theorem processTx_divOf_ne {u : ℚ} {s : EngineState} {tx : Transaction}
    {k : String} (h : k ≠ posKey tx) :
    divOf (processTx u s tx) k = divOf s k := by
  unfold divOf
  rw [processTx_positions, getA?_updA_ne h]

theorem processTx_divOf_mono {u : ℚ} {s : EngineState} {tx : Transaction}
    {k : String}
    (hd : tx.type = TransactionType.DIVIDEND →
      tx.fees ≤ tx.quantity * tx.unitPrice) :
    divOf s k ≤ divOf (processTx u s tx) k := by
  by_cases hk : k = posKey tx
  · subst hk
    rw [processTx_divOf_key, divOf_resolve]
    by_cases htype : tx.type = TransactionType.DIVIDEND
    · rw [dispatch_totalDividends_dividend htype]
      have := hd htype
      linarith
    · rw [dispatch_totalDividends htype]
  · rw [processTx_divOf_ne hk]

theorem foldl_divOf_mono (u : ℚ) (k : String) : ∀ (txs : List Transaction)
    (s : EngineState),
    (∀ tx ∈ txs, tx.type = TransactionType.DIVIDEND →
      tx.fees ≤ tx.quantity * tx.unitPrice) →
    divOf s k ≤ divOf (txs.foldl (processTx u) s) k := by
  intro txs
  induction txs with
  | nil => intro s _; exact le_refl _
  | cons tx rest ih =>
    intro s h
    rw [List.foldl_cons]
    exact le_trans
      (processTx_divOf_mono (h tx (List.mem_cons_self _ _)))
      (ih _ (fun t ht => h t (List.mem_cons_of_mem _ ht)))

/-! ### Tax aggregation lemmas (claims C4, C5) -/

theorem mem_insertSummaryDesc {x a : TaxMonthlySummary}
    {l : List TaxMonthlySummary} (h : x ∈ insertSummaryDesc a l) :
    x = a ∨ x ∈ l := by
  induction l with
  | nil => simpa [insertSummaryDesc] using h
  | cons y t ih =>
    unfold insertSummaryDesc at h
    split_ifs at h with hc
    · rcases List.mem_cons.1 h with h | h
      · exact Or.inl h
      · exact Or.inr h
    · rcases List.mem_cons.1 h with h | h
      · exact Or.inr (h ▸ List.mem_cons_self _ _)
      · rcases ih h with h | h
        · exact Or.inl h
        · exact Or.inr (List.mem_cons_of_mem _ h)

theorem mem_sortSummariesDesc {x : TaxMonthlySummary}
    {l : List TaxMonthlySummary} (h : x ∈ sortSummariesDesc l) : x ∈ l := by
  unfold sortSummariesDesc at h
  induction l with
  | nil => simp at h
  | cons a t ih =>
    rw [List.foldr_cons] at h
    rcases mem_insertSummaryDesc h with h | h
    · exact h ▸ List.mem_cons_self _ _
    · exact List.mem_cons_of_mem _ (ih h)

theorem finalizeSummary_month (s : TaxMonthlySummary) :
    (finalizeSummary s).month = s.month := rfl

theorem finalizeSummary_totalSales (s : TaxMonthlySummary) :
    (finalizeSummary s).totalSalesBRL = s.totalSalesBRL := rfl

theorem finalizeSummary_isExempt (s : TaxMonthlySummary) :
    (finalizeSummary s).isExempt = decide (s.totalSalesBRL ≤ 20000) := rfl

theorem finalizeSummary_details (s : TaxMonthlySummary) :
    (finalizeSummary s).details = s.details := rfl

theorem gainsVar_cons (d : RealizedGainDetail) (t : List RealizedGainDetail) :
    gainsVar (d :: t) =
      (if d.category = AssetCategory.VARIABLE then d.gain else 0) + gainsVar t := by
  unfold gainsVar
  by_cases h : d.category = AssetCategory.VARIABLE <;> simp [h]

theorem gainsFII_cons (d : RealizedGainDetail) (t : List RealizedGainDetail) :
    gainsFII (d :: t) =
      (if d.category = AssetCategory.FII then d.gain else 0) + gainsFII t := by
  unfold gainsFII
  by_cases h : d.category = AssetCategory.FII <;> simp [h]

theorem gainsFixed_cons (d : RealizedGainDetail) (t : List RealizedGainDetail) :
    gainsFixed (d :: t) =
      (if d.category = AssetCategory.FIXED then d.gain else 0) + gainsFixed t := by
  unfold gainsFixed
  by_cases h : d.category = AssetCategory.FIXED <;> simp [h]

theorem gainsFold (ds : List RealizedGainDetail) : ∀ a b c : ℚ,
    ds.foldl (fun (acc : ℚ × ℚ × ℚ) d =>
      if d.category = AssetCategory.FII then (acc.1, acc.2.1 + d.gain, acc.2.2)
      else if d.category = AssetCategory.FIXED then
        (acc.1, acc.2.1, acc.2.2 + d.gain)
      else (acc.1 + d.gain, acc.2.1, acc.2.2)) (a, b, c) =
    (a + gainsVar ds, b + gainsFII ds, c + gainsFixed ds) := by
  induction ds with
  | nil => intro a b c; simp [gainsVar, gainsFII, gainsFixed]
  | cons d t ih =>
    intro a b c
    rw [List.foldl_cons, gainsVar_cons, gainsFII_cons, gainsFixed_cons]
    cases hcat : d.category
    case VARIABLE =>
      simp only [hcat, reduceCtorEq, if_false, if_true]
      rw [ih]
      simp only [Prod.mk.injEq]
      refine ⟨by ring, by ring, by ring⟩
    case FII =>
      simp only [hcat, reduceCtorEq, if_false, if_true]
      rw [ih]
      simp only [Prod.mk.injEq]
      refine ⟨by ring, by ring, by ring⟩
    case FIXED =>
      simp only [hcat, reduceCtorEq, if_false, if_true]
      rw [ih]
      simp only [Prod.mk.injEq]
      refine ⟨by ring, by ring, by ring⟩

theorem finalizeSummary_taxDue (s : TaxMonthlySummary) :
    (finalizeSummary s).taxDueBRL =
      (if decide (s.totalSalesBRL ≤ 20000) = false ∧ 0 < gainsVar s.details then
         gainsVar s.details * 0.15
       else 0) +
      (if 0 < gainsFII s.details then gainsFII s.details * 0.20 else 0) +
      (if 0 < gainsFixed s.details then gainsFixed s.details * 0.15 else 0) := by
  unfold finalizeSummary
  rw [gainsFold]
  simp

theorem finalizeSummary_taxable (s : TaxMonthlySummary) :
    (finalizeSummary s).taxableGainBRL =
      (if decide (s.totalSalesBRL ≤ 20000) then 0 else max 0 (gainsVar s.details)) +
        max 0 (gainsFII s.details) + max 0 (gainsFixed s.details) := by
  unfold finalizeSummary
  rw [gainsFold]
  simp

theorem bool_perm3 (x y z : Bool) : ((z && y) && x) = (x && (y && z)) := by
  cases x <;> cases y <;> cases z <;> rfl

theorem eqSalesLocal_BR (m : String) (l : List RealizedGainDetail) :
    eqSalesLocal m (l.filter (fun d => decide (d.country = Country.BR))) =
      eqSalesBR m l := by
  unfold eqSalesLocal eqSalesBR brMonthCat
  rw [List.filter_filter]
  rw [List.filter_congr (fun d _ => Bool.and_comm
    (decide (d.month = m) && decide (d.category = AssetCategory.VARIABLE))
    (decide (d.country = Country.BR)))]

theorem eqSalesLocal_append_ne {m : String} {p : List RealizedGainDetail}
    {d : RealizedGainDetail} (h : d.month ≠ m) :
    eqSalesLocal m (p ++ [d]) = eqSalesLocal m p := by
  unfold eqSalesLocal
  rw [List.filter_append, List.map_append, List.sum_append]
  simp [h]

theorem eqSalesLocal_append_self {p : List RealizedGainDetail}
    {d : RealizedGainDetail} :
    eqSalesLocal d.month (p ++ [d]) = eqSalesLocal d.month p +
      (if d.category = AssetCategory.VARIABLE then d.quantity * d.sellPrice
       else 0) := by
  unfold eqSalesLocal
  rw [List.filter_append, List.map_append, List.sum_append]
  by_cases hc : d.category = AssetCategory.VARIABLE <;> simp [hc]

theorem monthDetails_append_ne {m : String} {p : List RealizedGainDetail}
    {d : RealizedGainDetail} (h : d.month ≠ m) :
    monthDetails m (p ++ [d]) = monthDetails m p := by
  unfold monthDetails
  rw [List.filter_append]
  simp [h]

theorem monthDetails_append_self {p : List RealizedGainDetail}
    {d : RealizedGainDetail} :
    monthDetails d.month (p ++ [d]) = monthDetails d.month p ++ [d] := by
  unfold monthDetails
  rw [List.filter_append]
  simp

theorem eqSalesLocal_of_absent {m : String} {p : List RealizedGainDetail}
    (h : ∀ d ∈ p, d.month ≠ m) : eqSalesLocal m p = 0 := by
  unfold eqSalesLocal
  have : p.filter (fun d =>
      decide (d.month = m) && decide (d.category = AssetCategory.VARIABLE)) = [] := by
    rw [List.filter_eq_nil_iff]
    intro d hd
    simp [h d hd]
  rw [this]
  simp

theorem monthDetails_of_absent {m : String} {p : List RealizedGainDetail}
    (h : ∀ d ∈ p, d.month ≠ m) : monthDetails m p = [] := by
  unfold monthDetails
  rw [List.filter_eq_nil_iff]
  intro d hd
  simp [h d hd]

theorem taxStep_eq_some {acc : List (String × TaxMonthlySummary)}
    {d : RealizedGainDetail} {s0 : TaxMonthlySummary}
    (h : getA? d.month acc = some s0) :
    taxStep acc d = updA d.month
      { s0 with
          totalSalesBRL := s0.totalSalesBRL +
            (if d.category = AssetCategory.VARIABLE then d.quantity * d.sellPrice
             else 0)
          details := s0.details ++ [d] } acc := by
  by_cases hcat : d.category = AssetCategory.VARIABLE <;> simp [taxStep, h, hcat]

theorem taxStep_eq_none {acc : List (String × TaxMonthlySummary)}
    {d : RealizedGainDetail} (h : getA? d.month acc = none) :
    taxStep acc d = updA d.month
      ⟨d.month,
       (if d.category = AssetCategory.VARIABLE then d.quantity * d.sellPrice
        else 0),
       0, 0, false, [d]⟩ acc := by
  by_cases hcat : d.category = AssetCategory.VARIABLE <;>
    simp [taxStep, h, hcat, initSummary]

theorem taxStep_inv {p : List RealizedGainDetail}
    {acc : List (String × TaxMonthlySummary)} {d : RealizedGainDetail}
    (h : TaxInv p acc) : TaxInv (p ++ [d]) (taxStep acc d) := by
  obtain ⟨hnd, hcomp, hmem⟩ := h
  have hcompletion : ∀ (S : TaxMonthlySummary),
      ∀ d' ∈ p ++ [d], getA? d'.month (updA d.month S acc) ≠ none := by
    intro S d' hd'
    rcases List.mem_append.1 hd' with hd' | hd'
    · by_cases hm : d'.month = d.month
      · rw [hm, getA?_updA_self]
        simp
      · rw [getA?_updA_ne hm]
        exact hcomp d' hd'
    · rw [List.mem_singleton] at hd'
      subst hd'
      rw [getA?_updA_self]
      simp
  cases hlook : getA? d.month acc with
  | some s0 =>
    obtain ⟨hm0, hs0, hd0⟩ := hmem (d.month, s0) (getA?_mem hlook)
    rw [taxStep_eq_some hlook]
    refine ⟨keys_nodup_updA hnd, hcompletion _, ?_⟩
    intro ms hms
    rcases mem_updA_nodup hnd hms with hnew | ⟨hold, hne⟩
    · subst hnew
      refine ⟨hm0, ?_, ?_⟩
      · show s0.totalSalesBRL + _ = _
        rw [hs0, hm0]
        rw [show (d.month, _).1 = d.month from rfl]
        rw [eqSalesLocal_append_self]
      · show s0.details ++ [d] = _
        rw [hd0, hm0]
        rw [show (d.month, _).1 = d.month from rfl]
        rw [monthDetails_append_self]
    · obtain ⟨hm1, hs1, hd1⟩ := hmem ms hold
      exact ⟨hm1, by rw [eqSalesLocal_append_ne (Ne.symm hne)]; exact hs1,
             by rw [monthDetails_append_ne (Ne.symm hne)]; exact hd1⟩
  | none =>
    have habs : ∀ d' ∈ p, d'.month ≠ d.month := by
      intro d' hd' heq
      exact hcomp d' hd' (heq ▸ hlook)
    rw [taxStep_eq_none hlook]
    refine ⟨keys_nodup_updA hnd, hcompletion _, ?_⟩
    intro ms hms
    rcases mem_updA_nodup hnd hms with hnew | ⟨hold, hne⟩
    · subst hnew
      refine ⟨rfl, ?_, ?_⟩
      · show _ = eqSalesLocal (d.month, _).1 (p ++ [d])
        rw [show (d.month, _).1 = d.month from rfl]
        rw [eqSalesLocal_append_self, eqSalesLocal_of_absent habs, zero_add]
      · show [d] = monthDetails (d.month, _).1 (p ++ [d])
        rw [show (d.month, _).1 = d.month from rfl]
        rw [monthDetails_append_self, monthDetails_of_absent habs]
        rfl
    · obtain ⟨hm1, hs1, hd1⟩ := hmem ms hold
      exact ⟨hm1, by rw [eqSalesLocal_append_ne (Ne.symm hne)]; exact hs1,
             by rw [monthDetails_append_ne (Ne.symm hne)]; exact hd1⟩

theorem taxFold_inv : ∀ (q p : List RealizedGainDetail)
    (acc : List (String × TaxMonthlySummary)),
    TaxInv p acc → TaxInv (p ++ q) (q.foldl taxStep acc) := by
  intro q
  induction q with
  | nil => intro p acc h; simpa using h
  | cons d t ih =>
    intro p acc h
    rw [List.foldl_cons]
    have h2 := ih (p ++ [d]) (taxStep acc d) (taxStep_inv h)
    rwa [List.append_assoc] at h2

theorem groupTax_inv (l : List RealizedGainDetail) :
    TaxInv (l.filter (fun d => decide (d.country = Country.BR))) (groupTax l) := by
  have h := taxFold_inv (l.filter (fun d => decide (d.country = Country.BR))) [] []
    ⟨by simp, by simp, by simp⟩
  simpa [groupTax] using h

theorem taxReport_mem {details : List RealizedGainDetail}
    {s : TaxMonthlySummary} (h : s ∈ taxReportOf details) :
    ∃ m s0, (m, s0) ∈ groupTax details ∧ s = finalizeSummary s0 := by
  unfold taxReportOf at h
  have h1 := mem_sortSummariesDesc h
  obtain ⟨p, hp, hps⟩ := List.mem_map.1 h1
  exact ⟨p.1, p.2, hp, hps.symm⟩

theorem buyFeesPerUnit_eq {l : Lot} (h : 0 ≤ l.originalQuantity) :
    buyFeesPerUnit l = l.fees / l.originalQuantity := by
  unfold buyFeesPerUnit
  rcases lt_or_eq_of_le h with h1 | h1
  · rw [if_pos h1]
  · rw [if_neg (by rw [← h1]; exact lt_irrefl 0), ← h1, div_zero]

theorem gains_monthDetails_var (m : String) (l : List RealizedGainDetail) :
    gainsVar (monthDetails m (l.filter (fun d => decide (d.country = Country.BR)))) =
      catGainBR m AssetCategory.VARIABLE l := by
  unfold gainsVar monthDetails catGainBR brMonthCat
  rw [List.filter_filter, List.filter_filter]
  rw [List.filter_congr (fun d _ => bool_perm3 (decide (d.country = Country.BR))
    (decide (d.month = m)) (decide (d.category = AssetCategory.VARIABLE)))]

theorem gains_monthDetails_fii (m : String) (l : List RealizedGainDetail) :
    gainsFII (monthDetails m (l.filter (fun d => decide (d.country = Country.BR)))) =
      catGainBR m AssetCategory.FII l := by
  unfold gainsFII monthDetails catGainBR brMonthCat
  rw [List.filter_filter, List.filter_filter]
  rw [List.filter_congr (fun d _ => bool_perm3 (decide (d.country = Country.BR))
    (decide (d.month = m)) (decide (d.category = AssetCategory.FII)))]

theorem gains_monthDetails_fixed (m : String) (l : List RealizedGainDetail) :
    gainsFixed (monthDetails m (l.filter (fun d => decide (d.country = Country.BR)))) =
      catGainBR m AssetCategory.FIXED l := by
  unfold gainsFixed monthDetails catGainBR brMonthCat
  rw [List.filter_filter, List.filter_filter]
  rw [List.filter_congr (fun d _ => bool_perm3 (decide (d.country = Country.BR))
    (decide (d.month = m)) (decide (d.category = AssetCategory.FIXED)))]

/-! ### Exact liquidation (claim C8) -/

theorem sellBranch_liquidate {u : ℚ} {s : EngineState} {tx : Transaction}
    {pos : Position} (h : tx.quantity = pos.totalQuantity) :
    (sellBranch u s tx pos).1.totalQuantity = 0 ∧
      (sellBranch u s tx pos).1.totalInvested = 0 ∧
      (sellBranch u s tx pos).1.averagePrice = 0 := by
  have habs : |pos.totalQuantity - tx.quantity| < EPSILON := by
    rw [h, sub_self]
    simpa using EPSILON_pos
  unfold sellBranch
  dsimp only
  rw [if_pos habs]
  exact ⟨rfl, rfl, rfl⟩

/-! ### Claim theorems -/

/-- **C1**: FIFO lot matching.  (a) For any lot list whose lots have
non-negative original quantities, the matched-lot list consumes lots
oldest-first: the i-th match comes from the i-th (oldest-first) lot, never
exceeds its remaining quantity, every match except possibly the last takes
the lot's whole remaining quantity (so a newer lot is never touched while an
older one still has quantity), and each match's cost basis is
`consumedQty × (unitPrice + fees / originalQuantity)`.  (b) The matched list
of a Sell/Redemption is recorded in `sellMatches` under the sell's
transaction id.  (c) Scenario B: Buy 100 @ 10 then Buy 100 @ 20 then
Sell 150 @ 25 (fees 0) matches 100 @ 10 and 50 @ 20, with cost basis
1000 + 1000 = 2000, proceeds 3750, gain 1750. -/
theorem c1_fifo_matching :
    (∀ (r : ℚ) (lots : List Lot), (∀ l ∈ lots, 0 ≤ l.originalQuantity) →
      ((consumeLots r lots).1.length ≤ lots.length ∧
       ∀ i m, ((consumeLots r lots).1).get? i = some m →
         ∃ l, lots.get? i = some l ∧ m.buyDate = l.date ∧
           m.buyPrice = l.unitPrice ∧ m.quantity ≤ l.quantity ∧
           (((consumeLots r lots).1).get? (i + 1) ≠ none →
             m.quantity = l.quantity) ∧
           m.costBasis = m.quantity * (l.unitPrice + l.fees / l.originalQuantity))) ∧
    (∀ (u : ℚ) (s : EngineState) (tx : Transaction),
      tx.type = TransactionType.SELL ∨ tx.type = TransactionType.REDEMPTION →
      getA? tx.id (processTx u s tx).sellMatches =
        some (consumeLots tx.quantity (resolvePos s tx).lots).1) ∧
    (getA? sellA150at25.id (replay 5 scenarioB).sellMatches =
      some [⟨"2024-01-05", 100, 10, 1000⟩, ⟨"2024-01-10", 50, 20, 1000⟩] ∧
     (replay 5 scenarioB).realizedGainDetails.map
        (fun d => (d.costBasis, d.gain)) = [(2000, 1750)] ∧
     sellA150at25.quantity * sellA150at25.unitPrice - sellA150at25.fees = 3750) := by
  refine ⟨?_, ?_, ?_⟩
  · intro r lots hnn
    refine ⟨consumeLots_length r lots, ?_⟩
    intro i m hm
    obtain ⟨l, hl, h1, h2, h3, h4, h5⟩ := consumeLots_align lots r i m hm
    refine ⟨l, hl, h1, h2, h3, h4, ?_⟩
    rw [h5, buyFeesPerUnit_eq (hnn l (List.get?_mem hl))]
  · intro u s tx htype
    rw [processTx_sellMatches, dispatch_sell htype, sellBranch_snd_sellMatches,
      getA?_updA_self]
  · decide

/-- Witness for C1: the FIFO alignment applied to the two concrete scenario-B
lots, and the recorded matches of the concrete scenario-B sell. -/
theorem c1_fifo_matching_witness :
    ((consumeLots 150 witLots).1.length ≤ witLots.length) ∧
    (getA? sellA150at25.id
        (processTx 5 (replay 5 [buyA100at10, buyA100at20]) sellA150at25).sellMatches =
      some (consumeLots sellA150at25.quantity
        (resolvePos (replay 5 [buyA100at10, buyA100at20]) sellA150at25).lots).1) :=
  ⟨(c1_fifo_matching.1 150 witLots (by decide)).1,
   c1_fifo_matching.2.1 5 (replay 5 [buyA100at10, buyA100at20]) sellA150at25
     (Or.inl rfl)⟩

/-- **C2**: a Split with positive factors leaves `totalInvested` unchanged,
rescales every lot (`unitPrice /= ratio`, `quantity *= ratio`,
`originalQuantity *= ratio`), recomputes `totalQuantity` as the sum of the
rescaled lot quantities, and (for a position satisfying the data-model
invariant `totalInvested = totalQuantity × averagePrice`, when the post-split
quantity exceeds EPSILON) preserves `totalQuantity × averagePrice`. -/
theorem c2_split_conservation (u : ℚ) (s : EngineState) (tx : Transaction)
    (f g : ℚ) (htype : tx.type = TransactionType.SPLIT)
    (hf : tx.splitFrom = some f) (hg : tx.splitTo = some g)
    (hf0 : 0 < f) (hg0 : 0 < g) :
    (resolvePos (processTx u s tx) tx).totalInvested =
        (resolvePos s tx).totalInvested ∧
    (resolvePos (processTx u s tx) tx).lots =
        (resolvePos s tx).lots.map (rescaleLot (g / f)) ∧
    (resolvePos (processTx u s tx) tx).totalQuantity =
        lotQty ((resolvePos s tx).lots.map (rescaleLot (g / f))) ∧
    ((resolvePos s tx).totalInvested =
        (resolvePos s tx).totalQuantity * (resolvePos s tx).averagePrice →
      EPSILON < (resolvePos (processTx u s tx) tx).totalQuantity →
      (resolvePos (processTx u s tx) tx).totalQuantity *
          (resolvePos (processTx u s tx) tx).averagePrice =
        (resolvePos s tx).totalQuantity * (resolvePos s tx).averagePrice) := by
  have hcond : f ≠ 0 ∧ g ≠ 0 ∧ 0 < f := ⟨ne_of_gt hf0, ne_of_gt hg0, hf0⟩
  rw [resolvePos_processTx, dispatch_split htype, splitBranch_fst hf hg hcond]
  refine ⟨rfl, rfl, ?_, ?_⟩
  · show ((resolvePos s tx).lots.map (rescaleLot (g / f))).foldl
      (fun a l => a + l.quantity) 0 = _
    rw [foldl_add_quantity, zero_add]
  · intro hinv hq
    have hq' : EPSILON < ((resolvePos s tx).lots.map (rescaleLot (g / f))).foldl
        (fun a l => a + l.quantity) 0 := hq
    show ((resolvePos s tx).lots.map (rescaleLot (g / f))).foldl
        (fun a l => a + l.quantity) 0 *
      (if EPSILON < ((resolvePos s tx).lots.map (rescaleLot (g / f))).foldl
          (fun a l => a + l.quantity) 0 then
        (resolvePos s tx).totalInvested /
          ((resolvePos s tx).lots.map (rescaleLot (g / f))).foldl
            (fun a l => a + l.quantity) 0
      else 0) = _
    rw [if_pos hq', mul_comm, div_mul_cancel₀ _ (ne_of_gt (lt_trans EPSILON_pos hq')),
      hinv]

/-- Witness for C2: a 1-for-2 split of a 100 @ 10 position keeps invested
capital and the quantity-price product. -/
theorem c2_split_conservation_witness :
    (resolvePos (processTx 5 (replay 5 [buyA100at10]) splitA1to2) splitA1to2).totalInvested =
        (resolvePos (replay 5 [buyA100at10]) splitA1to2).totalInvested ∧
    (resolvePos (processTx 5 (replay 5 [buyA100at10]) splitA1to2) splitA1to2).totalQuantity *
        (resolvePos (processTx 5 (replay 5 [buyA100at10]) splitA1to2) splitA1to2).averagePrice =
      (resolvePos (replay 5 [buyA100at10]) splitA1to2).totalQuantity *
        (resolvePos (replay 5 [buyA100at10]) splitA1to2).averagePrice :=
  ⟨(c2_split_conservation 5 (replay 5 [buyA100at10]) splitA1to2 1 2 rfl rfl rfl
      (by norm_num) (by norm_num)).1,
   (c2_split_conservation 5 (replay 5 [buyA100at10]) splitA1to2 1 2 rfl rfl rfl
      (by norm_num) (by norm_num)).2.2.2
     (by decide) (by decide)⟩

/-- **C3** (amended): after every transaction of the replay, every position
whose `totalQuantity` exceeds EPSILON satisfies
`totalInvested = totalQuantity × averagePrice` exactly (hence within 1e-8).
The unamended claim — every position, including dust positions left at or
below EPSILON by a Split — is refuted by `c3_position_invariant_counterexample`. -/
theorem c3_position_invariant (u : ℚ) (txs : List Transaction) :
    ∀ kp ∈ (replay u txs).positions, EPSILON < kp.2.totalQuantity →
      kp.2.totalInvested = kp.2.totalQuantity * kp.2.averagePrice :=
  fun kp hkp hq => replay_posInv u txs kp hkp hq

/-- Counterexample to C3 as stated: Buy 1 @ 10 then a 10^10-for-1 reverse
split leaves a position with `totalInvested = 10`, `totalQuantity = 10^-10`
and `averagePrice = 0`, violating the invariant by 10 ≫ 1e-8. -/
theorem c3_position_invariant_counterexample :
    ¬ (∀ kp ∈ (replay 5 [buyA1at10, splitDust]).positions,
        |kp.2.totalInvested - kp.2.totalQuantity * kp.2.averagePrice| ≤ EPSILON) := by
  decide

/-- Witness for C3: the scenario-B position after its partial sell. -/
theorem c3_position_invariant_witness :
    (resolvePos (replay 5 scenarioB) sellA150at25).totalInvested =
      (resolvePos (replay 5 scenarioB) sellA150at25).totalQuantity *
        (resolvePos (replay 5 scenarioB) sellA150at25).averagePrice :=
  c3_position_invariant 5 scenarioB
    (posKey sellA150at25, resolvePos (replay 5 scenarioB) sellA150at25)
    (by decide) (by decide)

/-- **C4**: each monthly tax summary's `totalSalesBRL` is the sum of
`quantity × sellPrice` over that month's BR variable-income-equity sales
only, and `isExempt` holds exactly when `totalSalesBRL ≤ 20000`; a month
with equity sales of exactly 20000 is exempt, 20000.01 is not. -/
theorem c4_sales_exemption :
    (∀ (details : List RealizedGainDetail) (s : TaxMonthlySummary),
      s ∈ taxReportOf details →
      s.totalSalesBRL = eqSalesBR s.month details ∧
      (s.isExempt = true ↔ s.totalSalesBRL ≤ 20000)) ∧
    ((taxReportOf (replay 5 boundaryExempt).realizedGainDetails).map
        (fun s => (s.totalSalesBRL, s.isExempt)) = [(20000, true)]) ∧
    ((taxReportOf (replay 5 boundaryTaxed).realizedGainDetails).map
        (fun s => (s.totalSalesBRL, s.isExempt)) = [(2000001 / 100, false)]) := by
  refine ⟨?_, by decide, by decide⟩
  intro details s hmem
  obtain ⟨m, s0, hg, rfl⟩ := taxReport_mem hmem
  obtain ⟨hm0, hs0, _⟩ := (groupTax_inv details).2.2 (m, s0) hg
  constructor
  · rw [finalizeSummary_totalSales, finalizeSummary_month, hs0, hm0]
    exact eqSalesLocal_BR m details
  · rw [finalizeSummary_isExempt, finalizeSummary_totalSales]
    exact decide_eq_true_iff

/-- Witness for C4: the single summary of the exactly-20000 month. -/
theorem c4_sales_exemption_witness :
    ((taxReportOf (replay 5 boundaryExempt).realizedGainDetails).getD 0
        default).totalSalesBRL =
      eqSalesBR ((taxReportOf (replay 5 boundaryExempt).realizedGainDetails).getD 0
        default).month (replay 5 boundaryExempt).realizedGainDetails ∧
    (((taxReportOf (replay 5 boundaryExempt).realizedGainDetails).getD 0
        default).isExempt = true ↔
      ((taxReportOf (replay 5 boundaryExempt).realizedGainDetails).getD 0
        default).totalSalesBRL ≤ 20000) :=
  c4_sales_exemption.1 (replay 5 boundaryExempt).realizedGainDetails
    ((taxReportOf (replay 5 boundaryExempt).realizedGainDetails).getD 0 default)
    (by decide)

/-- **C5**: each monthly summary's `taxDueBRL` is 15% of the equity gain
(only when not exempt and positive) plus 20% of the fund gain (if positive)
plus 15% of the fixed-income gain (if positive), and `taxableGainBRL` is the
sum of the positive parts, with the equity part zeroed when exempt; negative
buckets contribute nothing. -/
theorem c5_tax_formula :
    ∀ (details : List RealizedGainDetail) (s : TaxMonthlySummary),
      s ∈ taxReportOf details →
      s.taxDueBRL =
        (if s.isExempt = false ∧
            0 < catGainBR s.month AssetCategory.VARIABLE details then
           catGainBR s.month AssetCategory.VARIABLE details * 0.15
         else 0) +
        (if 0 < catGainBR s.month AssetCategory.FII details then
           catGainBR s.month AssetCategory.FII details * 0.20
         else 0) +
        (if 0 < catGainBR s.month AssetCategory.FIXED details then
           catGainBR s.month AssetCategory.FIXED details * 0.15
         else 0) ∧
      s.taxableGainBRL =
        (if s.isExempt = true then 0
         else max 0 (catGainBR s.month AssetCategory.VARIABLE details)) +
          max 0 (catGainBR s.month AssetCategory.FII details) +
          max 0 (catGainBR s.month AssetCategory.FIXED details) := by
  intro details s hmem
  obtain ⟨m, s0, hg, rfl⟩ := taxReport_mem hmem
  obtain ⟨hm0, hs0, hd0⟩ := (groupTax_inv details).2.2 (m, s0) hg
  have hvar : gainsVar s0.details = catGainBR m AssetCategory.VARIABLE details := by
    rw [hd0]; exact gains_monthDetails_var m details
  have hfii : gainsFII s0.details = catGainBR m AssetCategory.FII details := by
    rw [hd0]; exact gains_monthDetails_fii m details
  have hfixed : gainsFixed s0.details = catGainBR m AssetCategory.FIXED details := by
    rw [hd0]; exact gains_monthDetails_fixed m details
  constructor
  · rw [finalizeSummary_taxDue, finalizeSummary_isExempt, finalizeSummary_month,
      hvar, hfii, hfixed, hm0]
  · rw [finalizeSummary_taxable, finalizeSummary_isExempt, finalizeSummary_month,
      hvar, hfii, hfixed, hm0]

/-- Witness for C5: the taxed month's summary. -/
theorem c5_tax_formula_witness :
    ((taxReportOf (replay 5 boundaryTaxed).realizedGainDetails).getD 0
        default).taxDueBRL =
      (if ((taxReportOf (replay 5 boundaryTaxed).realizedGainDetails).getD 0
            default).isExempt = false ∧
          0 < catGainBR ((taxReportOf
            (replay 5 boundaryTaxed).realizedGainDetails).getD 0 default).month
            AssetCategory.VARIABLE (replay 5 boundaryTaxed).realizedGainDetails then
         catGainBR ((taxReportOf
            (replay 5 boundaryTaxed).realizedGainDetails).getD 0 default).month
            AssetCategory.VARIABLE (replay 5 boundaryTaxed).realizedGainDetails
           * 0.15
       else 0) +
      (if 0 < catGainBR ((taxReportOf
            (replay 5 boundaryTaxed).realizedGainDetails).getD 0 default).month
            AssetCategory.FII (replay 5 boundaryTaxed).realizedGainDetails then
         catGainBR ((taxReportOf
            (replay 5 boundaryTaxed).realizedGainDetails).getD 0 default).month
            AssetCategory.FII (replay 5 boundaryTaxed).realizedGainDetails * 0.20
       else 0) +
      (if 0 < catGainBR ((taxReportOf
            (replay 5 boundaryTaxed).realizedGainDetails).getD 0 default).month
            AssetCategory.FIXED (replay 5 boundaryTaxed).realizedGainDetails then
         catGainBR ((taxReportOf
            (replay 5 boundaryTaxed).realizedGainDetails).getD 0 default).month
            AssetCategory.FIXED (replay 5 boundaryTaxed).realizedGainDetails * 0.15
       else 0) :=
  (c5_tax_formula (replay 5 boundaryTaxed).realizedGainDetails
    ((taxReportOf (replay 5 boundaryTaxed).realizedGainDetails).getD 0 default)
    (by decide)).1

/-- **C6** (amended): for transactions with non-negative quantities and fees,
positive split factors on both sides of every Split, and no Sell/Redemption
requesting more than its position's current quantity, every position's
`totalQuantity` stays non-negative through the replay.  The unamended claim
(which does not exclude overselling) is refuted by
`c6_quantity_nonneg_counterexample`. -/
theorem c6_quantity_nonneg (u : ℚ) (txs : List Transaction)
    (hok : ∀ tx ∈ txs, txOk tx = true)
    (hno : noOversell u initState txs = true) :
    ∀ kp ∈ (replay u txs).positions, 0 ≤ kp.2.totalQuantity :=
  fun kp hkp =>
    (foldl_nonneg u txs initState hok hno (by simp [initState]) kp hkp).1

/-- Counterexample to C6 as stated: Buy 10 then Sell 100 (all quantities and
fees non-negative, no Split at all) leaves `totalQuantity = -90`. -/
theorem c6_quantity_nonneg_counterexample :
    (∀ tx ∈ [buyA10at10, sellA100at25], 0 ≤ tx.quantity ∧ 0 ≤ tx.fees ∧
      tx.type ≠ TransactionType.SPLIT) ∧
    ¬ (∀ kp ∈ (replay 5 [buyA10at10, sellA100at25]).positions,
        0 ≤ kp.2.totalQuantity) := by
  constructor
  · decide
  · decide

/-- Witness for C6: a covered partial sell keeps the quantity non-negative. -/
theorem c6_quantity_nonneg_witness :
    0 ≤ (resolvePos (replay 5 [buyA10at10, sellA5at25]) sellA5at25).totalQuantity :=
  c6_quantity_nonneg 5 [buyA10at10, sellA5at25] (by decide) (by decide)
    (posKey sellA5at25, resolvePos (replay 5 [buyA10at10, sellA5at25]) sellA5at25)
    (by decide)

/-- **C7** (amended): when a Sell/Redemption requests more than the total
remaining lot quantity by more than EPSILON (lot quantities being
non-negative), consumption simply stops when the lots run out: the recorded
matches consume every lot in full, their quantities sum to the available
quantity, the position's lots become empty, and the emitted detail's cost
basis covers only the available lots, with
`gain = (quantity × unitPrice − fees) − partial cost basis`.  The unamended
claim (any excess, however small) is refuted by
`c7_oversell_excess_counterexample`. -/
theorem c7_oversell_excess (u : ℚ) (s : EngineState) (tx : Transaction)
    (htype : tx.type = TransactionType.SELL ∨
      tx.type = TransactionType.REDEMPTION)
    (hnn : ∀ l ∈ (resolvePos s tx).lots, 0 ≤ l.quantity)
    (hover : lotQty (resolvePos s tx).lots + EPSILON < tx.quantity) :
    getA? tx.id (processTx u s tx).sellMatches =
      some (fullMatches (resolvePos s tx).lots) ∧
    ((fullMatches (resolvePos s tx).lots).map (fun m => m.quantity)).sum =
      lotQty (resolvePos s tx).lots ∧
    (resolvePos (processTx u s tx) tx).lots = [] ∧
    (processTx u s tx).realizedGainDetails = s.realizedGainDetails ++
      [⟨tx.id, tx.date, tx.ticker, tx.broker, tx.country, tx.category,
        tx.quantity, tx.unitPrice, lotCost (resolvePos s tx).lots,
        (tx.quantity * tx.unitPrice - tx.fees) - lotCost (resolvePos s tx).lots,
        tx.date.take 7⟩] := by
  have hex := consumeLots_exhaust (resolvePos s tx).lots tx.quantity hnn hover
  refine ⟨?_, fullMatches_qty_sum _, ?_, ?_⟩
  · rw [processTx_sellMatches, dispatch_sell htype, sellBranch_snd_sellMatches,
      hex]
    exact getA?_updA_self _ _ _
  · rw [resolvePos_processTx, dispatch_sell htype, sellBranch_fst_lots, hex]
  · rw [processTx_details, dispatch_sell htype, sellBranch_snd_details, hex]

/-- Counterexample to C7 as stated: with lots of 100 and 10^-9 units and a
sell of 100 + 5·10^-9 units (more than available, but by less than EPSILON),
the loop stops early: the matches sum to 100, not to the available
100 + 10^-9, and a lot is left over. -/
theorem c7_oversell_excess_counterexample :
    (lotQty (resolvePos (replay 5 [buyA100at1, buyTiny]) sellBand).lots <
      sellBand.quantity) ∧
    ¬ ((((getA? sellBand.id
          (replay 5 [buyA100at1, buyTiny, sellBand]).sellMatches).getD []).map
            (fun m => m.quantity)).sum =
        lotQty (resolvePos (replay 5 [buyA100at1, buyTiny]) sellBand).lots) ∧
    (resolvePos (replay 5 [buyA100at1, buyTiny, sellBand]) sellBand).lots ≠ [] := by
  refine ⟨by decide, by decide, by decide⟩

/-- Witness for C7: selling 200 out of 100 available consumes the whole lot
list. -/
theorem c7_oversell_excess_witness :
    getA? sellA200at1.id
        (processTx 5 (replay 5 [buyA100at1]) sellA200at1).sellMatches =
      some (fullMatches (resolvePos (replay 5 [buyA100at1]) sellA200at1).lots) ∧
    (resolvePos (processTx 5 (replay 5 [buyA100at1]) sellA200at1)
      sellA200at1).lots = [] :=
  ⟨(c7_oversell_excess 5 (replay 5 [buyA100at1]) sellA200at1 (Or.inl rfl)
      (by decide) (by decide)).1,
   (c7_oversell_excess 5 (replay 5 [buyA100at1]) sellA200at1 (Or.inl rfl)
      (by decide) (by decide)).2.2.1⟩

/-- **C8**: a Sell/Redemption of exactly the position's `totalQuantity`
leaves `totalQuantity`, `totalInvested` and `averagePrice` all exactly 0. -/
theorem c8_full_liquidation (u : ℚ) (s : EngineState) (tx : Transaction)
    (htype : tx.type = TransactionType.SELL ∨
      tx.type = TransactionType.REDEMPTION)
    (hq : tx.quantity = (resolvePos s tx).totalQuantity) :
    (resolvePos (processTx u s tx) tx).totalQuantity = 0 ∧
      (resolvePos (processTx u s tx) tx).totalInvested = 0 ∧
      (resolvePos (processTx u s tx) tx).averagePrice = 0 := by
  rw [resolvePos_processTx, dispatch_sell htype]
  exact sellBranch_liquidate hq

/-- Witness for C8: selling all 100 units of a 100 @ 10 position. -/
theorem c8_full_liquidation_witness :
    (resolvePos (processTx 5 (replay 5 [buyA100at10]) sellA100at15)
        sellA100at15).totalQuantity = 0 ∧
      (resolvePos (processTx 5 (replay 5 [buyA100at10]) sellA100at15)
        sellA100at15).totalInvested = 0 ∧
      (resolvePos (processTx 5 (replay 5 [buyA100at10]) sellA100at15)
        sellA100at15).averagePrice = 0 :=
  c8_full_liquidation 5 (replay 5 [buyA100at10]) sellA100at15 (Or.inl rfl)
    (by decide)

/-- **C9** (amended): a Dividend adds exactly
`quantity × unitPrice − fees` to its position's `totalDividends` and touches
no other position; no other transaction type changes any `totalDividends`;
and provided every Dividend's fees do not exceed its gross amount,
`totalDividends` never decreases along the replay.  The unamended claim
(monotone under only `quantity ≥ 0` and `fees ≥ 0`) is refuted by
`c9_dividend_accumulation_counterexample`. -/
theorem c9_dividend_accumulation :
    (∀ (u : ℚ) (s : EngineState) (tx : Transaction),
      tx.type = TransactionType.DIVIDEND →
      divOf (processTx u s tx) (posKey tx) =
        divOf s (posKey tx) + (tx.quantity * tx.unitPrice - tx.fees) ∧
      ∀ k, k ≠ posKey tx → divOf (processTx u s tx) k = divOf s k) ∧
    (∀ (u : ℚ) (s : EngineState) (tx : Transaction),
      tx.type ≠ TransactionType.DIVIDEND →
      ∀ k, divOf (processTx u s tx) k = divOf s k) ∧
    (∀ (u : ℚ) (k : String) (l1 l2 : List Transaction),
      (∀ tx ∈ l2, tx.type = TransactionType.DIVIDEND →
        tx.fees ≤ tx.quantity * tx.unitPrice) →
      divOf (replay u l1) k ≤ divOf (replay u (l1 ++ l2)) k) := by
  refine ⟨?_, ?_, ?_⟩
  · intro u s tx htype
    refine ⟨?_, ?_⟩
    · rw [processTx_divOf_key, dispatch_totalDividends_dividend htype,
        divOf_resolve]
    · intro k hk
      exact processTx_divOf_ne hk
  · intro u s tx htype k
    by_cases hk : k = posKey tx
    · subst hk
      rw [processTx_divOf_key, dispatch_totalDividends htype, divOf_resolve]
    · exact processTx_divOf_ne hk
  · intro u k l1 l2 h
    unfold replay
    rw [List.foldl_append]
    exact foldl_divOf_mono u k l2 _ h

/-- Counterexample to C9 as stated: a Dividend of 1 @ 1 with fees 5
(quantity and fees both non-negative) decreases `totalDividends` from 0 to
-4. -/
theorem c9_dividend_accumulation_counterexample :
    (0 ≤ divNegNet.quantity ∧ 0 ≤ divNegNet.fees) ∧
    divOf (replay 5 [divNegNet]) (posKey divNegNet) <
      divOf (replay 5 ([] : List Transaction)) (posKey divNegNet) := by
  refine ⟨by decide, by decide⟩

/-- Witness for C9: a net-positive dividend adds its net amount and the
running total does not decrease. -/
theorem c9_dividend_accumulation_witness :
    (divOf (processTx 5 (replay 5 [buyA100at10]) divPosNet) (posKey divPosNet) =
      divOf (replay 5 [buyA100at10]) (posKey divPosNet) +
        (divPosNet.quantity * divPosNet.unitPrice - divPosNet.fees)) ∧
    (divOf (replay 5 [buyA100at10]) (posKey divPosNet) ≤
      divOf (replay 5 ([buyA100at10] ++ [divPosNet])) (posKey divPosNet)) :=
  ⟨(c9_dividend_accumulation.1 5 (replay 5 [buyA100at10]) divPosNet rfl).1,
   c9_dividend_accumulation.2.2 5 (posKey divPosNet) [buyA100at10] [divPosNet]
     (by decide)⟩

/-- **C10**: every transaction, whatever its type, overwrites the last-known
price of its `country:ticker` key with its own `unitPrice` before the equity
update, and the day's `HistoricalPoint` equity is the mark-to-market value of
all tracked quantities at those last-written prices plus the realized-cash
accumulator.  Concretely, after Buy 100 @ 10 then a Dividend @ 0.5 per
share, the holding is valued at 0.5: equity is 100·0.5 + 50 = 100, not
100·10 + 50. -/
theorem c10_last_price_marking :
    (∀ (u : ℚ) (s : EngineState) (tx : Transaction),
      getA? (tickerKey tx) (processTx u s tx).lastKnownPrices =
        some tx.unitPrice) ∧
    (∀ (u : ℚ) (s : EngineState) (tx : Transaction),
      (processTx u s tx).historicalEquity.getLast? =
        some ⟨tx.date,
          marketValue u (processTx u s tx).currentQuantities
              (processTx u s tx).lastKnownPrices +
            (processTx u s tx).accumulatedRealizedGainBRL,
          (processTx u s tx).totalInvestedBRL⟩) ∧
    ((replay 5 [buyA100at10, divPosNet]).historicalEquity.getLast? =
      some ⟨"2024-02-01", 100, 1000⟩) ∧
    (getA? (tickerKey divPosNet) (replay 5 [buyA100at10, divPosNet]).lastKnownPrices =
      some (1 / 2)) := by
  refine ⟨?_, ?_, by decide, by decide⟩
  · intro u s tx
    rw [processTx_lastKnownPrices]
    exact getA?_updA_self _ _ _
  · intro u s tx
    rw [processTx_historicalEquity, pushPoint_getLast]

end Planilha
